import Mathlib

/-
  Verification development for the roo Slack-bot repository.

  All text is modelled as `List Char` (ASCII-faithful shallow embedding of
  the Python string operations used by the source).  Each definition mirrors
  one Python function of the repository; the file then settles the frozen
  claims about the points client, the quest tracker, the agent fast path and
  the skill executor.
-/

set_option maxRecDepth 4000

/-! ### Character and text utilities (shared) -/

/-- ASCII uppercase letter test, mirroring the character class A-Z. -/
def isUpperAZ (c : Char) : Bool := 65 ≤ c.toNat && c.toNat ≤ 90

/-- ASCII lowercase letter test, mirroring the character class a-z. -/
def isLowerAZ (c : Char) : Bool := 97 ≤ c.toNat && c.toNat ≤ 122

/-- ASCII letter test, mirroring the regex class [a-zA-Z]. -/
def isLttr (c : Char) : Bool := isUpperAZ c || isLowerAZ c

/-- ASCII digit test, mirroring the regex class [0-9] and str.isdigit for ASCII. -/
def isDigitC (c : Char) : Bool := 48 ≤ c.toNat && c.toNat ≤ 57

/-- Python whitespace class (the characters matched by the regex class backslash-s
and stripped by str.strip). -/
def isPySpace (c : Char) : Bool :=
  c = ' ' || c = '\t' || c = '\n' || c = '\x0b' || c = '\x0c' || c = '\r'

/-- ASCII lowering of one character, mirroring str.lower on ASCII input. -/
def lowChar (c : Char) : Char :=
  if isUpperAZ c then Char.ofNat (c.toNat + 32) else c

/-- ASCII lowering of a text, mirroring str.lower. -/
def lowList (s : List Char) : List Char := s.map lowChar

/-- Leading-whitespace removal, first half of str.strip. -/
def dropLeadWs (s : List Char) : List Char := s.dropWhile isPySpace

/-- Python str.strip: remove leading and trailing whitespace. -/
def pyStrip (s : List Char) : List Char :=
  ((dropLeadWs s).reverse.dropWhile isPySpace).reverse

/-- Splitting on whitespace runs, mirroring str.split with no argument. -/
def wordsOf (s : List Char) : List (List Char) :=
  (s.splitOnP (fun c => isPySpace c)).filter (fun w => ¬ w.isEmpty)

/-! ### The Slack-id cleaner (skills/mlai_points/client.py, _clean_slack_id) -/

/-- Prefix of a list before the first occurrence of the separator; mirrors
the Python expression s.split(sep)[0]. -/
def beforeBar : List Char → List Char
  | [] => []
  | c :: cs => if c = '|' then [] else c :: beforeBar cs

/-- Embedding of PointsClient._clean_slack_id: empty strings are returned
unchanged; a token starting with the two characters angle-at and ending with
the closing angle is stripped to the part of its interior before the first
bar; a token starting with an at sign loses that sign; anything else is
returned unchanged. -/
def _clean_slack_id (s : List Char) : List Char :=
  if s.isEmpty then s
  else if ['<', '@'].isPrefixOf s && s.getLast? == some '>' then
    beforeBar ((s.drop 2).dropLast)
  else if s.head? == some '@' then s.tail
  else s

example : _clean_slack_id ['<', '@', 'U', '1', '>'] = ['U', '1'] := by decide
example : _clean_slack_id ['@', '@', 'U', '1'] = ['@', 'U', '1'] := by decide
example : _clean_slack_id ['@', 'U', '1'] = ['U', '1'] := by decide

/-! ### The points client (skills/mlai_points/client.py, award_points)

The HTTP backend is abstracted into an environment of response functions;
the embedding records every backend interaction of award_points in a call
trace so that the no-call claims are statements about that trace. -/

/-- Admin weekly allowance record as returned by the allowance endpoint
(fields allowance, used, remaining of the JSON body). -/
structure Allowance where
  allowance : Int
  used : Int
  remaining : Int
deriving DecidableEq

/-- Outcome of client.get_admin_allowance as observed by its callers: a JSON
body with the allowance fields, a JSON body carrying an error key (the
method converts 404 and generic exceptions into such a body), or a
re-raised HTTP status error. -/
inductive AllowanceRes where
  | okA (al : Allowance)
  | errDict (msg : List Char)
  | raised (msg : List Char)
deriving DecidableEq

/-- Structured rendering of the exceptions raised by award_points.  Each
constructor corresponds to one raise site of the source and carries the
numbers interpolated into its message. -/
inductive AwardErr where
  | notAdmin (adminId : List Char)
  | selfAward
  | deductDisabled
  | allowanceUnavailable (msg : List Char)
  | quotaExhausted (allowance : Int)
  | quotaExceeded (remaining allowance : Int)
  | httpRaise (msg : List Char)
deriving DecidableEq

/-- Payload of a POST to the admin award endpoint. -/
structure AwardCall where
  admin_slack_id : List Char
  target_slack_id : List Char
  points : Int
  reason : List Char
deriving DecidableEq

/-- Backend interactions the embedded client and executor can perform. -/
inductive Call where
  | isAdminCheck (id : List Char)
  | getAllowance (id : List Char)
  | getRateCard
  | userBySlack (id : List Char)
  | linkUser (id email : List Char)
  | awardPost (c : AwardCall)
deriving DecidableEq

/-- Whether a backend interaction is a POST to the admin award endpoint. -/
def Call.isAwardPost : Call → Bool
  | .awardPost _ => true
  | _ => false

/-- Environment of backend responses seen by one PointsClient. -/
structure PointsEnv where
  isAdmin : List Char → Bool
  adminAllowance : List Char → AllowanceRes
  post : AwardCall → Except (List Char) Int

/-- Final step of award_points: the POST to the admin award endpoint, whose
response either parses to a new balance or raises an HTTP error. -/
def postAward (env : PointsEnv) (admin cleaned : List Char) (points : Int)
    (reason : List Char) (tr : List Call) : Except AwardErr Int × List Call :=
  let c : AwardCall := ⟨admin, cleaned, points, reason⟩
  match env.post c with
  | .ok v => (.ok v, tr ++ [.awardPost c])
  | .error e => (.error (.httpRaise e), tr ++ [.awardPost c])

/-- Embedding of PointsClient.award_points.  The four pre-flight checks run
in source order: admin status, self-award for positive amounts, negative
amounts, and for positive amounts the weekly allowance fetched from the
backend; only after all of them does the POST to the award endpoint
happen.  The second component is the trace of backend interactions. -/
def award_points (env : PointsEnv) (admin target : List Char) (points : Int)
    (reason : List Char) : Except AwardErr Int × List Call :=
  if env.isAdmin admin = false then
    (.error (.notAdmin admin), [.isAdminCheck admin])
  else
    let cleaned := _clean_slack_id target
    if admin = cleaned ∧ 0 < points then
      (.error .selfAward, [.isAdminCheck admin])
    else if points < 0 then
      (.error .deductDisabled, [.isAdminCheck admin])
    else if 0 < points then
      match env.adminAllowance admin with
      | .errDict msg =>
          (.error (.allowanceUnavailable msg), [.isAdminCheck admin, .getAllowance admin])
      | .raised msg =>
          (.error (.httpRaise msg), [.isAdminCheck admin, .getAllowance admin])
      | .okA al =>
          if al.remaining ≤ 0 then
            (.error (.quotaExhausted al.allowance), [.isAdminCheck admin, .getAllowance admin])
          else if al.remaining < points then
            (.error (.quotaExceeded al.remaining al.allowance),
             [.isAdminCheck admin, .getAllowance admin])
          else
            postAward env admin cleaned points reason [.isAdminCheck admin, .getAllowance admin]
    else
      postAward env admin cleaned points reason [.isAdminCheck admin]

/-! ### The quest tracker (roo/quests.py)

The two module-level dictionaries _quest_progress and _completed_quests are
modelled as fields of a state record, together with two instrumentation
counters: how often the completion handler _complete_quest fired for a pair
and how many award POSTs it issued (the handler skips the POST when the bot
user id is unavailable, and swallows every award exception). -/

/-- Static data of one quest from the QUESTS configuration table; only the
fields consumed by the progress logic are kept. -/
structure QuestDef where
  target_count : Nat
  points : Int
deriving DecidableEq

/-- The QUESTS table of roo/quests.py, keyed by quest id (match rules are
evaluated by the caller handle_quests and do not enter _update_progress). -/
def QUESTS : List (List Char × QuestDef) :=
  [ (['c','o','n','n','e','c','t','o','r'], ⟨5, 5⟩),
    (['h','e','l','p','e','r'], ⟨3, 5⟩),
    (['f','i','r','s','t','_','c','o','n','t','a','c','t'], ⟨1, 2⟩),
    (['p','a','p','e','r','_','t','r','a','i','l'], ⟨1, 5⟩),
    (['g','i','t','_','p','u','s','h','e','r'], ⟨1, 5⟩),
    (['m','o','d','e','l','_','c','i','t','i','z','e','n'], ⟨1, 5⟩),
    (['c','o','d','e','_','b','l','o','o','d','e','d'], ⟨1, 2⟩),
    (['s','h','o','w','_','o','f','f'], ⟨1, 10⟩),
    (['b','u','g','_','b','a','s','h','e','r'], ⟨1, 10⟩),
    (['m','e','l','b','_','c','o','f','f','e','e'], ⟨1, 1⟩),
    (['k','a','n','g','a','r','o','o','_','c','o','u','r','t'], ⟨1, 1⟩),
    (['w','a','r','m','_','w','e','l','c','o','m','e'], ⟨1, 5⟩),
    (['n','i','g','h','t','_','o','w','l'], ⟨1, 10⟩) ]

/-- Process state of the quest tracker plus instrumentation counters for
completion-handler firings and actual award POSTs per (user, quest) pair. -/
structure QuestState where
  progress : List Char → List Char → Nat
  completed : List Char → List Char → Bool
  completions : List Char → List Char → Nat
  awardPosts : List Char → List Char → Nat

/-- Fresh in-memory state at process start: no progress, nothing completed,
no reward activity. -/
def initQuestState : QuestState :=
  ⟨fun _ _ => 0, fun _ _ => false, fun _ _ => 0, fun _ _ => 0⟩

/-- Pointwise update of a two-key counter table. -/
def setAt (f : List Char → List Char → α) (u q : List Char) (v : α) :
    List Char → List Char → α :=
  fun u' q' => if u' = u ∧ q' = q then v else f u' q'

/-- Context of one qualifying event delivery: whether get_bot_user_id
resolves (the completion handler returns early without awarding when it
does not) and whether the system award POST fails (the handler catches the
failure and keeps going). -/
structure QuestCtx where
  botIdPresent : Bool
  awardFails : Bool
deriving DecidableEq

/-- One qualifying delivery routed to a (user, quest) pair. -/
structure QEvent where
  user : List Char
  quest : List Char
  ctx : QuestCtx

/-- Embedding of _update_progress followed by _complete_quest of
roo/quests.py.  A pair already marked completed is skipped entirely;
otherwise the counter is incremented, and on reaching the target the
completion marker is set before the award attempt.  The award POST happens
only when the bot id is available, and neither its absence nor its failure
touches the marker or the counter (quest ids outside the QUESTS table
would raise a KeyError in the source and are modelled as no-ops). -/
def _update_progress (s : QuestState) (e : QEvent) : QuestState :=
  match QUESTS.lookup e.quest with
  | none => s
  | some qd =>
    if s.completed e.user e.quest then s
    else
      let current := s.progress e.user e.quest + 1
      let s1 := { s with progress := setAt s.progress e.user e.quest current }
      if qd.target_count ≤ current then
        { s1 with
          completed := setAt s1.completed e.user e.quest true,
          completions := setAt s1.completions e.user e.quest
            (s1.completions e.user e.quest + 1),
          awardPosts := setAt s1.awardPosts e.user e.quest
            (s1.awardPosts e.user e.quest + (if e.ctx.botIdPresent then 1 else 0)) }
      else s1

/-- Sequential processing of a stream of qualifying deliveries. -/
def runQuests (s : QuestState) (evs : List QEvent) : QuestState :=
  evs.foldl _update_progress s

/-! ### The agent (roo/agent.py)

handle_mention cleans the text, tries the fast path and only on a fast-path
miss consults the skill selector; the embedding records selector and
executor invocations in the same trace as the direct backend calls, so the
short-circuit claims become statements about the trace. -/

/-- Attempt to match the mention regex (open angle, at sign, one or more
characters of the class A-Z0-9, closing angle) at the head of the text,
returning the captured id and the rest. -/
def matchMentionAt : List Char → Option (List Char × List Char)
  | '<' :: '@' :: rest =>
      let ids := rest.takeWhile (fun c => isUpperAZ c || isDigitC c)
      (match rest.drop ids.length with
       | '>' :: rest2 => if ids.isEmpty then none else some (ids, rest2)
       | _ => none)
  | _ => none

/-- Fuel-driven scan removing every non-overlapping occurrence of the
pattern, mirroring re.sub of a literal pattern with the empty replacement;
the fuel is the text length, enough for the left-to-right scan. -/
def removeAllGo (p : List Char) : Nat → List Char → List Char
  | _, [] => []
  | 0, s => s
  | fuel + 1, c :: cs =>
      if p ≠ [] ∧ p.isPrefixOf (c :: cs) then removeAllGo p fuel ((c :: cs).drop p.length)
      else c :: removeAllGo p fuel cs

/-- Remove all occurrences of a literal pattern from a text. -/
def removeAllPat (p s : List Char) : List Char := removeAllGo p s.length s

/-- Remove the first mention token from a text, mirroring re.sub of the
mention regex with count one. -/
def removeFirstMentionGo : Nat → List Char → List Char
  | _, [] => []
  | 0, s => s
  | fuel + 1, c :: cs =>
      match matchMentionAt (c :: cs) with
      | some (_, rest) => rest
      | none => c :: removeFirstMentionGo fuel cs

/-- Remove the first mention token from a text. -/
def removeFirstMention (s : List Char) : List Char := removeFirstMentionGo s.length s

/-- Embedding of RooAgent._clean_mention: when the bot id resolves, every
occurrence of exactly the bot mention is removed, otherwise the first
generic mention is removed; whitespace is then collapsed to single spaces
and the result stripped. -/
def _clean_mention (botId : Option (List Char)) (text : List Char) : List Char :=
  let cleaned := match botId with
    | some b => removeAllPat (['<', '@'] ++ b ++ ['>']) text
    | none => removeFirstMention text
  pyStrip (List.intercalate [' '] (wordsOf cleaned))

/-- The five direct commands recognised by the fast path. -/
inductive FastAction where
  | balance
  | list_tasks
  | list_rewards
  | book_coworking
  | cancel_coworking
deriving DecidableEq

/-- Balance endpoint payload fields read by the fast path. -/
structure BalanceData where
  balance : Int
  lifetime_earned : Int
deriving DecidableEq

/-- Task row fields read by the fast path formatter. -/
structure TaskRow where
  id : Int
  title : List Char
  points : Int
  portfolio : List Char
deriving DecidableEq

/-- Reward row fields read by the fast path formatter. -/
structure RewardRow where
  code : List Char
  name : List Char
  cost_points : Int
deriving DecidableEq

/-- Booking response field read by the fast path formatter. -/
structure BookData where
  points_cost : Int
deriving DecidableEq

/-- Cancellation response field read by the fast path formatter. -/
structure CancelData where
  refund_amount : Int
deriving DecidableEq

/-- Structured rendering of the messages produced by _execute_fast_points,
one constructor per message template of the source, carrying exactly the
values interpolated into the template.  fastApology stands for the fixed
apology text of the exception handler (having trouble connecting to the
points system, try again). -/
inductive FastMsg where
  | balanceSummary (balance lifetime_earned : Int)
  | noOpenTasks
  | openTasks (rows : List TaskRow)
  | noRewards
  | rewardsMenu (rows : List RewardRow)
  | bookedToday (dateStr : List Char) (cost : Int)
  | cancelledToday (dateStr : List Char) (refund : Int)
  | fastApology
deriving DecidableEq

/-- Message of a handle_mention result: a fast-path message, an executor
message, or a general conversational reply. -/
inductive MentionMsg where
  | fastMsg (m : FastMsg)
  | skillMsg (t : List Char)
  | generalMsg (t : List Char)
deriving DecidableEq

/-- Result dictionary of handle_mention: message, the skill-used tag, and
the error entry of the data dictionary when present. -/
structure HandleRes where
  message : MentionMsg
  skill_used : Option (List Char)
  dataErr : Option (List Char)
deriving DecidableEq

/-- Calls the agent can make while handling one mention: the five direct
backend calls of the fast path, plus the selector, executor and
general-reply invocations of the slow path. -/
inductive ACall where
  | getBalance (uid : List Char)
  | listTasks
  | listRewards (uid : List Char)
  | bookCoworking (uid dateStr : List Char) (channel : Option (List Char))
  | cancelCoworking (uid dateStr : List Char)
  | selectSkill (t : List Char)
  | executeSkill (name t : List Char)
  | generalResponse (t : List Char)
deriving DecidableEq

/-- One loaded skill as the agent sees it: its declared name and whether its
implementation module exposes the PointsClient class. -/
structure SkillInfo where
  name : List Char
  hasPointsClient : Bool
deriving DecidableEq

/-- Outcomes of the direct backend calls available to the fast path; an
error value is the stringified exception raised by the call. -/
structure FastBackend where
  balance : Except (List Char) BalanceData
  tasks : Except (List Char) (List TaskRow)
  rewards : Except (List Char) (List RewardRow)
  book : List Char → Option (List Char) → Except (List Char) BookData
  cancel : List Char → Except (List Char) CancelData

/-- Environment of one handle_mention invocation: loaded skills, the bot
identity, backend outcomes, the two clock readings (the date in the system
time zone as read by date.today, and the date in the configured TIMEZONE as
read by roo.utils.get_current_date), the selector decision and the slow
path text generators. -/
structure AgentEnv where
  skills : List SkillInfo
  botId : Option (List Char)
  fb : FastBackend
  systemToday : List Char
  tzToday : List Char
  selectorChoice : List Char → Option (List Char)
  skillExec : List Char → List Char → List Char
  generalReply : List Char → List Char

/-- Embedding of roo/utils.py get_current_date: the current date in the
configured TIMEZONE, supplied by the environment clock. -/
def get_current_date (env : AgentEnv) : List Char := env.tzToday

/-- The skill-used tag of the short name of the points skill. -/
def mlaiPointsName : List Char :=
  ['m', 'l', 'a', 'i', '-', 'p', 'o', 'i', 'n', 't', 's']

/-- Tag of a successful fast-path result. -/
def fastTag : List Char := mlaiPointsName ++ [' ', '(', 'f', 'a', 's', 't', ')']

/-- Tag of a degraded fast-path result produced by the exception handler. -/
def fastErrorTag : List Char :=
  mlaiPointsName ++ [' ', '(', 'f', 'a', 's', 't', '-', 'e', 'r', 'r', 'o', 'r', ')']

/-- Word-sequence matcher for the fast-path regexes: the text must consist
of exactly the given literal words separated by single nonempty whitespace
runs, mirroring literals joined by the whitespace-plus regex operator. -/
def wordSeqTail : List (List Char) → List Char → Bool
  | [], t => t.isEmpty
  | [w], t => t == w
  | w :: rest, t =>
      w.isPrefixOf t &&
      (let r := t.drop w.length
       let sp := r.takeWhile isPySpace
       ¬ sp.isEmpty && wordSeqTail rest (r.drop sp.length))

def pointsW : List Char := ['p', 'o', 'i', 'n', 't', 's']

def balanceW : List Char := ['b', 'a', 'l', 'a', 'n', 'c', 'e']

def earnW : List Char := ['e', 'a', 'r', 'n']

def tasksW : List Char := ['t', 'a', 's', 'k', 's']

def rewardsW : List Char := ['r', 'e', 'w', 'a', 'r', 'd', 's']

def coworkingW : List Char := ['c', 'o', 'w', 'o', 'r', 'k', 'i', 'n', 'g']

def bookW : List Char := ['b', 'o', 'o', 'k']

def todayW : List Char := ['t', 'o', 'd', 'a', 'y']

def cancelW : List Char := ['c', 'a', 'n', 'c', 'e', 'l']

/-- The fast-path pattern table of _try_fast_path, applied to the lowered
and stripped text: balance query, list-earn-tasks, list-rewards,
book-coworking-today, cancel-coworking; first match wins. -/
def fastPatternMatch (t : List Char) : Option FastAction :=
  if t == pointsW || t == balanceW || t == (['m', 'y', ' '] ++ pointsW) then
    some .balance
  else if wordSeqTail [pointsW, earnW] t || wordSeqTail [earnW, pointsW] t ||
      t == tasksW || wordSeqTail [['w', 'a', 'y', 's'], ['t', 'o'], earnW] t then
    some .list_tasks
  else if wordSeqTail [pointsW, rewardsW] t || t == rewardsW then
    some .list_rewards
  else if wordSeqTail [coworkingW, bookW, todayW] t then
    some .book_coworking
  else if wordSeqTail [coworkingW, cancelW] t then
    some .cancel_coworking
  else none

/-- The one direct backend call of a fast action together with its
formatted message or raised exception. -/
def fastStep (env : AgentEnv) (user : List Char) (a : FastAction)
    (dateArg chanArg : Option (List Char)) : Except (List Char) FastMsg × List ACall :=
  match a with
  | .balance =>
      (env.fb.balance.map (fun d => .balanceSummary d.balance d.lifetime_earned),
       [.getBalance user])
  | .list_tasks =>
      (env.fb.tasks.map (fun ts =>
        if ts.isEmpty then .noOpenTasks else .openTasks (ts.take 10)),
       [.listTasks])
  | .list_rewards =>
      (env.fb.rewards.map (fun rs =>
        if rs.isEmpty then .noRewards else .rewardsMenu rs),
       [.listRewards user])
  | .book_coworking =>
      let d := dateArg.getD []
      ((env.fb.book d chanArg).map (fun b => .bookedToday d b.points_cost),
       [.bookCoworking user d chanArg])
  | .cancel_coworking =>
      let d := dateArg.getD []
      ((env.fb.cancel d).map (fun c => .cancelledToday d c.refund_amount),
       [.cancelCoworking user d])

/-- Embedding of RooAgent._execute_fast_points.  Without a loaded skill
named mlai-points exposing a PointsClient the method returns None before
making any call; otherwise it performs the one direct backend call of the
action and formats the answer, and every exception of the call is caught
and converted to the apology result with the fast-error tag and the
stringified exception in the data dictionary. -/
def _execute_fast_points (env : AgentEnv) (user : List Char) (a : FastAction)
    (dateArg chanArg : Option (List Char)) : Option HandleRes × List ACall :=
  match env.skills.find? (fun s => s.name == mlaiPointsName) with
  | none => (none, [])
  | some sk =>
    if sk.hasPointsClient = false then (none, [])
    else
      match (fastStep env user a dateArg chanArg).1 with
      | .ok m =>
          (some ⟨.fastMsg m, some fastTag, none⟩, (fastStep env user a dateArg chanArg).2)
      | .error e =>
          (some ⟨.fastMsg .fastApology, some fastErrorTag, some e⟩,
           (fastStep env user a dateArg chanArg).2)

/-- Embedding of RooAgent._try_fast_path: lower and strip the cleaned text,
match it against the fixed pattern table, and on a hit execute the action
directly; the booking and cancellation commands derive their date from
date.today in the system time zone. -/
def _try_fast_path (env : AgentEnv) (clean_text user : List Char)
    (chan : Option (List Char)) : Option HandleRes × List ACall :=
  let t := lowList (pyStrip clean_text)
  match fastPatternMatch t with
  | some .book_coworking =>
      _execute_fast_points env user .book_coworking (some env.systemToday) chan
  | some .cancel_coworking =>
      _execute_fast_points env user .cancel_coworking (some env.systemToday) none
  | some a => _execute_fast_points env user a none none
  | none => (none, [])

/-- Embedding of RooAgent.handle_mention: clean the text, try the fast
path, and only when it yields nothing invoke the skill selector and either
the executor or the general reply. -/
def handle_mention (env : AgentEnv) (text user : List Char)
    (chan : Option (List Char)) : HandleRes × List ACall :=
  let clean_text := _clean_mention env.botId text
  let fastRes := _try_fast_path env clean_text user chan
  match fastRes.1 with
  | some r => (r, fastRes.2)
  | none =>
    match env.selectorChoice clean_text with
    | some sname =>
        (⟨.skillMsg (env.skillExec sname clean_text), some sname, none⟩,
         fastRes.2 ++ [.selectSkill clean_text, .executeSkill sname clean_text])
    | none =>
        (⟨.generalMsg (env.generalReply clean_text), none, none⟩,
         fastRes.2 ++ [.selectSkill clean_text, .generalResponse clean_text])

/-- Error taxonomy of the specification. -/
inductive ErrKind where
  | unauthorized
  | quota_exceeded
  | not_found
  | bad_request
  | upstream_unavailable
  | extraction_failed
  | ambiguous_input
deriving DecidableEq

/-- Modelled from the spec: the error-kind classification of dispatch
results (section 7 taxonomy); the source marks the degraded fast-path
result only with the fast-error tag, which the specification files under
upstream_unavailable. -/
def errorKindOf (r : HandleRes) : Option ErrKind :=
  if r.skill_used == some fastErrorTag then some .upstream_unavailable else none

/-! ### The skill executor, points dispatch (roo/skills/executor.py)

Embedding of _handle_points_action restricted to the deduction and award
branches of the source (the member and task branches are folded into an
otherAction marker: the dispatch is a chain of equality tests on the action
string, so the branches are independent).  Replies are rendered
structurally, one constructor per return site. -/

/-- Scan for all non-overlapping mention tokens in a text, mirroring
re.findall of the mention regex. -/
def findMentionsGo : Nat → List Char → List (List Char)
  | _, [] => []
  | 0, _ => []
  | fuel + 1, c :: cs =>
      match matchMentionAt (c :: cs) with
      | some (ids, rest) => ids :: findMentionsGo fuel rest
      | none => findMentionsGo fuel cs

/-- All mention ids appearing in a text, in order. -/
def findMentions (s : List Char) : List (List Char) := findMentionsGo s.length s

/-- Removal of every angle bracket and at sign from a parameter value,
mirroring re.sub of the character class with those three characters. -/
def stripAngles (s : List Char) : List Char :=
  s.filter (fun c => c ≠ '<' && c ≠ '@' && c ≠ '>')

/-- Stop-word list of the target validation (prepositions and domain
keywords discarded as false-positive targets). -/
def invalidWords : List (List Char) :=
  [ ['f', 'o', 'r'], ['t', 'o'], ['r', 'e', 'a', 's', 'o', 'n'],
    ['b', 'e', 'c', 'a', 'u', 's', 'e'], ['p', 'o', 'i', 'n', 't', 's'],
    ['a', 'w', 'a', 'r', 'd'], ['g', 'i', 'v', 'e'], ['a', 'n', 'd'] ]

/-- Extracted parameters consumed by the award branch; absent map entries
are the zero integer, the none option, the empty list or the empty text,
matching the dictionary defaults of the source. -/
structure AwardParams where
  points : Int
  reason : Option (List Char)
  target_users : List (List Char)
  target_user : List Char
  target_slack_id : List Char
deriving DecidableEq

/-- Whether a candidate target differs from the bot identity (comparison
against an unresolved bot id is vacuously true, as in the source where the
id is then None). -/
def botOk (botId : Option (List Char)) (c : List Char) : Bool :=
  match botId with
  | some b => c != b
  | none => true

/-- Target-user resolution of the award branch: all mention tokens of the
raw text except the bot, else the cleaned structured parameters in their
fallback order, with the stop-word filter applied last. -/
def awardTargets (botId : Option (List Char)) (text : List Char) (p : AwardParams) :
    List (List Char) :=
  let mentions := findMentions text
  let fromText := match botId with
    | some b => mentions.filter (fun uid => uid != b)
    | none => mentions
  let raw :=
    if fromText ≠ [] then fromText
    else if p.target_users ≠ [] then
      (p.target_users.map stripAngles).filter (fun c => !c.isEmpty && botOk botId c)
    else if p.target_user ≠ [] then
      (let c := stripAngles p.target_user
       if !c.isEmpty && botOk botId c then [c] else [])
    else if p.target_slack_id ≠ [] then
      (let c := stripAngles p.target_slack_id
       if !c.isEmpty && botOk botId c then [c] else [])
    else []
  raw.filter (fun uid => !(invalidWords.contains (lowList uid)))

def pointU : List Char := ['p', 'o', 'i', 'n', 't']

def ptU : List Char := ['p', 't']

def ptsU : List Char := ['p', 't', 's']

/-- Greedy match of the optional unit group of the amount regex (the
alternation of point with optional s and pt with optional s, case
insensitive), returning the matched characters and the rest. -/
def matchUnit (s : List Char) : List Char × List Char :=
  if lowList (s.take 6) == pointsW then (s.take 6, s.drop 6)
  else if lowList (s.take 5) == pointU then (s.take 5, s.drop 5)
  else if lowList (s.take 3) == ptsU then (s.take 3, s.drop 3)
  else if lowList (s.take 2) == ptU then (s.take 2, s.drop 2)
  else ([], s)

/-- Decimal value of a digit run. -/
def digitsVal (ds : List Char) : Nat :=
  ds.foldl (fun acc c => acc * 10 + (c.toNat - ('0').toNat)) 0

/-- One match of the amount regex: the signed number captured by group one,
the whitespace run and the optional unit word that complete group zero. -/
structure AmountMatch where
  value : Int
  numStr : List Char
  ws : List Char
  unitStr : List Char
deriving DecidableEq

/-- Group zero of an amount match. -/
def g0 (m : AmountMatch) : List Char := m.numStr ++ m.ws ++ m.unitStr

/-- Lookbehind of the amount regex: the previous character, when there is
one, must not be an ASCII letter. -/
def letterPrev (prev : Option Char) : Bool :=
  match prev with
  | some c => isLttr c
  | none => false

/-- Consume the optional sign of the amount regex. -/
def splitSign (s : List Char) : Option Char × List Char :=
  match s with
  | c :: r => if c = '+' then (some '+', r) else if c = '-' then (some '-', r) else (none, s)
  | [] => (none, s)

/-- Render the consumed sign. -/
def signChars (sign : Option Char) : List Char :=
  match sign with
  | some c => [c]
  | none => []

/-- Attempt of the amount regex at the current position: the previous
character must not be an ASCII letter (the lookbehind), then an optional
sign, one or more digits, optional whitespace and the optional unit. -/
def matchAmountAt (prev : Option Char) (s : List Char) : Option AmountMatch :=
  if letterPrev prev then none
  else
    let sr := splitSign s
    let digits := sr.2.takeWhile isDigitC
    if digits.isEmpty then none
    else
      let after := sr.2.drop digits.length
      let ws := after.takeWhile isPySpace
      let u := (matchUnit (after.drop ws.length)).1
      let v : Int := (digitsVal digits : Int)
      some { value := if sr.1 = some '-' then -v else v,
             numStr := signChars sr.1 ++ digits,
             ws := ws, unitStr := u }

/-- Left-to-right scan of the amount regex over the text. -/
def findAmountGo : Nat → Option Char → List Char → Option AmountMatch
  | _, _, [] => none
  | 0, _, _ => none
  | fuel + 1, prev, c :: cs =>
      match matchAmountAt prev (c :: cs) with
      | some m => some m
      | none => findAmountGo fuel (some c) cs

/-- First match of the amount regex in a text, mirroring re.search. -/
def findAmount (s : List Char) : Option AmountMatch := findAmountGo s.length none s

/-- The keyword test of the amount fallback: group zero, lowered, contains
the word point or the word pts as a substring. -/
def hasUnitKeyword (m : AmountMatch) : Bool :=
  decide (pointU <:+: lowList (g0 m)) || decide (ptsU <:+: lowList (g0 m))

/-- Embedding of the amount-resolution step of the award branch: when the
extracted points are absent (zero), the first regex match of the raw text
is accepted exactly when its group zero contains a point or pts keyword or
its absolute value is below one thousand; otherwise the points stay
undetermined. -/
def resolveAmount (points : Int) (text : List Char) : Int :=
  if points = 0 then
    match findAmount text with
    | some m => if hasUnitKeyword m || m.value.natAbs < 1000 then m.value else 0
    | none => 0
  else points

/-! ### The rate-card resolver (executor smart-award block)

The similarity score is the difflib SequenceMatcher ratio without the junk
and autojunk heuristics (faithful to the source for texts shorter than the
two hundred character popularity threshold), scaled by one hundred as in
the source expression. -/

/-- Rate-card entry fields read by the resolver (the description defaults
to the empty text in the source). -/
structure RateEntry where
  name : List Char
  points : Int
  desc : List Char
deriving DecidableEq

/-- Length of the longest common run at the heads of two texts. -/
def commonLen : List Char → List Char → Nat
  | a :: xs, b :: ys => if a = b then commonLen xs ys + 1 else 0
  | _, _ => 0

/-- Length of the matching run starting at positions i and j, clipped to
the current ranges. -/
def runLen (a b : List Char) (ahi bhi i j : Nat) : Nat :=
  min (commonLen (a.drop i) (b.drop j)) (min (ahi - i) (bhi - j))

/-- Inner loop of find_longest_match: scan the start positions in b for a
fixed start position in a, keeping the first strictly longer block. -/
def bestInner (a b : List Char) (ahi bhi i : Nat) :
    List Nat → Nat × Nat × Nat → Nat × Nat × Nat
  | [], best => best
  | j :: js, best =>
      bestInner a b ahi bhi i js
        (if best.2.2 < runLen a b ahi bhi i j then (i, j, runLen a b ahi bhi i j) else best)

/-- Inner loop of find_longest_match over the whole b range. -/
def bestAtI (a b : List Char) (ahi bhi i blo : Nat) (best : Nat × Nat × Nat) :
    Nat × Nat × Nat :=
  bestInner a b ahi bhi i (List.range' blo (bhi - blo)) best

/-- Outer loop of find_longest_match over the start positions in a. -/
def bestOuter (a b : List Char) (ahi bhi blo : Nat) :
    List Nat → Nat × Nat × Nat → Nat × Nat × Nat
  | [], best => best
  | i :: is2, best => bestOuter a b ahi bhi blo is2 (bestAtI a b ahi bhi i blo best)

/-- find_longest_match over the given ranges: the longest matching block,
ties resolved towards the earliest start in a and then in b. -/
def bestMatch (a b : List Char) (alo ahi blo bhi : Nat) : Nat × Nat × Nat :=
  bestOuter a b ahi bhi blo (List.range' alo (ahi - alo)) (alo, blo, 0)

/-- Total size of the matching blocks of get_matching_blocks, computed by
the recursive split around the longest block; the fuel bounds the
recursion depth and the sum of the range lengths shrinks at every level. -/
def matchSumGo (a b : List Char) : Nat → Nat → Nat → Nat → Nat → Nat
  | 0, _, _, _, _ => 0
  | fuel + 1, alo, ahi, blo, bhi =>
      if (bestMatch a b alo ahi blo bhi).2.2 = 0 then 0
      else
        matchSumGo a b fuel alo (bestMatch a b alo ahi blo bhi).1 blo
          (bestMatch a b alo ahi blo bhi).2.1 +
        (bestMatch a b alo ahi blo bhi).2.2 +
        matchSumGo a b fuel
          ((bestMatch a b alo ahi blo bhi).1 + (bestMatch a b alo ahi blo bhi).2.2) ahi
          ((bestMatch a b alo ahi blo bhi).2.1 + (bestMatch a b alo ahi blo bhi).2.2) bhi

/-- SequenceMatcher ratio scaled by one hundred: twice the matched size
over the total length, and one hundred for two empty texts. -/
def simScore (a b : List Char) : ℚ :=
  if a.length + b.length = 0 then 100
  else
    200 * (matchSumGo a b (a.length + b.length + 1) 0 a.length 0 b.length : ℚ) /
      ((a.length : ℚ) + (b.length : ℚ))

/-- Candidate score of the resolver: fifty for the reason appearing in the
entry name, thirty for appearing in the description, plus the similarity
of reason and name when that similarity exceeds sixty. -/
def entryScore (rl : List Char) (e : RateEntry) : ℚ :=
  let base : ℚ :=
    (if rl <:+: lowList e.name then 50 else 0) +
    (if rl <:+: lowList e.desc then 30 else 0)
  let seq := simScore rl (lowList e.name)
  base + (if 60 < seq then seq else 0)

/-- Stable descending insertion by score, matching the stable sort of the
source with the reverse flag. -/
def insertByScore (x : ℚ × RateEntry) : List (ℚ × RateEntry) → List (ℚ × RateEntry)
  | [] => [x]
  | y :: ys => if y.1 ≤ x.1 then x :: y :: ys else y :: insertByScore x ys

/-- Stable descending sort by score. -/
def sortByScoreDesc (l : List (ℚ × RateEntry)) : List (ℚ × RateEntry) :=
  l.foldr insertByScore []

/-- Scored candidates of the resolver: entries scoring above forty, with
their scores, in descending score order. -/
def rateMatches (card : List RateEntry) (rl : List Char) : List (ℚ × RateEntry) :=
  sortByScoreDesc (card.filterMap (fun e =>
    if 40 < entryScore rl e then some (entryScore rl e, e) else none))

/-- Structured rendering of the return sites of the deduction and award
branches of _handle_points_action, one constructor per message template. -/
inductive PointsReply where
  | deductRefused
  | notAuthorized
  | allowanceUsedUp (weekly : Int)
  | askWho
  | askAmount
  | confirmRateCard (name : List Char) (pts : Int) (target : List Char)
      (remainingInfo : Option Int)
  | disambiguate (opts : List (List Char × Int)) (remainingInfo : Option Int)
  | negativeRefused
  | awardReport (results : List (List Char × Int)) (errors : List (List Char × AwardErr))
      (pts : Int) (reason : List Char)
  | otherAction (action : List Char)
deriving DecidableEq

/-- Environment of one executor dispatch: the points backend, the bot
identity, the rate card (get_rate_card converts its failures to the empty
list), and the user-linking lookups of the award loop. -/
structure ExecEnv where
  pts : PointsEnv
  botId : Option (List Char)
  rateCard : List RateEntry
  userBySlack : List Char → Option Int
  userEmail : List Char → Option (List Char)
  linkRes : List Char → List Char → Option Int

/-- Backend calls of the deduplication block preceding one award: the
Slack-id lookup, and the email link only when the id is unknown and an
email is available (every failure there is caught and awarding proceeds). -/
def linkTrace (env : ExecEnv) (target : List Char) : List Call :=
  match env.userBySlack target with
  | some _ => [.userBySlack target]
  | none =>
      match env.userEmail target with
      | some em => [.userBySlack target, .linkUser target em]
      | none => [.userBySlack target]

/-- The per-target award loop: each target is linked and then awarded
through the client, successes and stringified failures collected
separately. -/
def awardLoop (env : ExecEnv) (user : List Char) (points : Int) (reason : List Char) :
    List (List Char) → List (List Char × Int) × List (List Char × AwardErr) × List Call
  | [] => ([], [], [])
  | t :: ts =>
      let lt := linkTrace env t
      let r := award_points env.pts user t points reason
      let rest := awardLoop env user points reason ts
      match r.1 with
      | .ok nb => ((t, nb) :: rest.1, rest.2.1, lt ++ r.2 ++ rest.2.2)
      | .error e => (rest.1, (t, e) :: rest.2.1, lt ++ r.2 ++ rest.2.2)

def award_pointsA : List Char :=
  ['a', 'w', 'a', 'r', 'd', '_', 'p', 'o', 'i', 'n', 't', 's']

def awardA : List Char := ['a', 'w', 'a', 'r', 'd']

def deduct_pointsA : List Char :=
  ['d', 'e', 'd', 'u', 'c', 't', '_', 'p', 'o', 'i', 'n', 't', 's']

def deductA : List Char := ['d', 'e', 'd', 'u', 'c', 't']

/-- Default reason of the award branch. -/
def manualAdjustment : List Char :=
  ['M', 'a', 'n', 'u', 'a', 'l', ' ', 'a', 'd', 'j', 'u', 's', 't', 'm', 'e', 'n', 't']

/-- Body of the award branch after the allowance pre-check: target
resolution, amount resolution, the advisory rate-card fallback (which only
ever asks or proposes, never awards), the negative-amount guard, and
finally the award loop. -/
def awardBody (env : ExecEnv) (p : AwardParams) (text user : List Char)
    (storedRemaining : Option Int) (tr : List Call) : PointsReply × List Call :=
  let reasonVal := p.reason.getD manualAdjustment
  let targets := awardTargets env.botId text p
  if targets = [] then (.askWho, tr)
  else
    let pts1 := resolveAmount p.points text
    if pts1 = 0 then
      if reasonVal ≠ [] then
        match rateMatches env.rateCard (lowList reasonVal) with
        | [] => (.askAmount, tr ++ [.getRateCard])
        | top :: restM =>
            if restM = [] ∨ 80 < top.1 then
              (.confirmRateCard top.2.name top.2.points
                 (_clean_slack_id (targets.headD [])) storedRemaining,
               tr ++ [.getRateCard])
            else
              (.disambiguate (((top :: restM).take 3).map (fun m => (m.2.name, m.2.points)))
                 storedRemaining,
               tr ++ [.getRateCard])
      else (.askAmount, tr)
    else if pts1 < 0 then (.negativeRefused, tr)
    else
      let lp := awardLoop env user pts1 reasonVal targets
      (.awardReport lp.1 lp.2.1 pts1 reasonVal, tr ++ lp.2.2)

/-- Embedding of _handle_points_action for the deduction and award
actions.  Deduction is refused before any backend interaction; the award
branch first runs the allowance pre-check (a dictionary error means not
authorized, an exhausted allowance stops early, an exception is swallowed
and the branch continues without the stored remaining); every other action
name is folded into the otherAction marker. -/
def _handle_points_action (env : ExecEnv) (action : List Char) (p : AwardParams)
    (text user : List Char) : PointsReply × List Call :=
  if action = deduct_pointsA ∨ action = deductA then (.deductRefused, [])
  else if action = award_pointsA ∨ action = awardA then
    match env.pts.adminAllowance user with
    | .errDict _ => (.notAuthorized, [.getAllowance user])
    | .raised _ => awardBody env p text user none [.getAllowance user]
    | .okA al =>
        if al.remaining ≤ 0 then (.allowanceUsedUp al.allowance, [.getAllowance user])
        else awardBody env p text user (some al.remaining) [.getAllowance user]
  else (.otherAction action, [])

/-! ### Theorems -/

/-! #### Claim C10: the Slack-id cleaner -/

/-- Whether a text has one of the two shapes the cleaner rewrites. -/
def mentionShaped (s : List Char) : Bool :=
  (['<', '@'].isPrefixOf s && s.getLast? == some '>') || s.head? == some '@'

lemma beforeBar_no_bar (id : List Char) (h : '|' ∉ id) : beforeBar id = id := by
  induction id with
  | nil => rfl
  | cons c cs ih =>
      have hc : c ≠ '|' := fun e => h (e ▸ List.mem_cons_self c cs)
      simp only [beforeBar, if_neg hc]
      exact congrArg (c :: ·) (ih (fun hm => h (List.mem_cons_of_mem c hm)))

lemma beforeBar_append_bar (id r : List Char) (h : '|' ∉ id) :
    beforeBar (id ++ '|' :: r) = id := by
  induction id with
  | nil => simp [beforeBar]
  | cons c cs ih =>
      have hc : c ≠ '|' := fun e => h (e ▸ List.mem_cons_self c cs)
      simp only [List.cons_append, beforeBar, if_neg hc]
      exact congrArg (c :: ·) (ih (fun hm => h (List.mem_cons_of_mem c hm)))

lemma clean_of_not_shaped (t : List Char) (h : mentionShaped t = false) :
    _clean_slack_id t = t := by
  unfold mentionShaped at h
  rw [Bool.or_eq_false_iff] at h
  unfold _clean_slack_id
  by_cases he : t.isEmpty
  · simp [he]
  · simp only [he, if_false, Bool.false_eq_true]
    rw [if_neg (by simp [h.1]), if_neg (by simp [h.2])]

lemma clean_angle_form (id : List Char) (h : '|' ∉ id) :
    _clean_slack_id (['<', '@'] ++ id ++ ['>']) = id := by
  have hl : (['<', '@'] ++ id ++ ['>']).getLast? = some '>' := List.getLast?_concat _
  have hpre : (['<', '@'].isPrefixOf (['<', '@'] ++ id ++ ['>'])) = true := by
    simp [List.isPrefixOf]
  unfold _clean_slack_id
  rw [if_neg (by simp), if_pos (by rw [Bool.and_eq_true]; exact ⟨hpre, by rw [hl]; rfl⟩)]
  show beforeBar ((id ++ ['>']).dropLast) = id
  rw [List.dropLast_concat]
  exact beforeBar_no_bar id h

lemma clean_angle_label_form (id label : List Char) (h : '|' ∉ id) :
    _clean_slack_id (['<', '@'] ++ id ++ ['|'] ++ label ++ ['>']) = id := by
  have hl : (['<', '@'] ++ id ++ ['|'] ++ label ++ ['>']).getLast? = some '>' :=
    List.getLast?_concat _
  have hpre : (['<', '@'].isPrefixOf (['<', '@'] ++ id ++ ['|'] ++ label ++ ['>'])) = true := by
    simp [List.isPrefixOf]
  unfold _clean_slack_id
  rw [if_neg (by simp), if_pos (by rw [Bool.and_eq_true]; exact ⟨hpre, by rw [hl]; rfl⟩)]
  show beforeBar ((((id ++ ['|']) ++ label) ++ ['>']).dropLast) = id
  rw [List.dropLast_concat]
  have hb : (id ++ ['|']) ++ label = id ++ '|' :: label := by simp
  rw [hb]
  exact beforeBar_append_bar id label h

/-- Claim C10 (amended): the cleaner is idempotent on every input whose
cleaned value is not itself at-prefixed or angle-bracketed (stacked
prefixes such as a double at sign clean one layer per application), and
every well-formed mention form maps to the bare id: the angle form and the
angle form with a label map to the id when the id carries no bar, and the
at form maps to everything after the at sign. -/
theorem clean_slack_id_props :
    ∀ s id label : List Char,
      (mentionShaped (_clean_slack_id s) = false →
        _clean_slack_id (_clean_slack_id s) = _clean_slack_id s) ∧
      ('|' ∉ id → _clean_slack_id (['<', '@'] ++ id ++ ['>']) = id) ∧
      ('|' ∉ id → _clean_slack_id (['<', '@'] ++ id ++ ['|'] ++ label ++ ['>']) = id) ∧
      (_clean_slack_id ('@' :: id) = id) := by
  intro s id label
  refine ⟨fun h => clean_of_not_shaped _ h, fun h => clean_angle_form id h,
    fun h => clean_angle_label_form id label h, ?_⟩
  unfold _clean_slack_id
  rw [if_neg (by simp), if_neg (by simp [List.isPrefixOf]), if_pos (by simp)]
  rfl

/-- Witness for the amended claim C10 at concrete inputs. -/
theorem clean_slack_id_props_witness :
    (mentionShaped (_clean_slack_id (['<', '@', 'U', '7', '>'])) = false ∧
      _clean_slack_id (_clean_slack_id (['<', '@', 'U', '7', '>'])) =
        _clean_slack_id (['<', '@', 'U', '7', '>'])) ∧
    _clean_slack_id (['<', '@', 'U', '7', '>']) = ['U', '7'] ∧
    _clean_slack_id (['<', '@', 'U', '7', '|', 'b', 'o', 'b', '>']) = ['U', '7'] ∧
    _clean_slack_id ('@' :: ['U', '7']) = ['U', '7'] := by
  have h := clean_slack_id_props ['<', '@', 'U', '7', '>'] ['U', '7'] ['b', 'o', 'b']
  exact ⟨⟨by decide, h.1 (by decide)⟩, h.2.1 (by decide), h.2.2.1 (by decide), h.2.2.2⟩

/-- Counterexample to claim C10 as stated: cleaning is not idempotent on
every string; a doubled at prefix cleans one layer per application. -/
theorem clean_slack_id_not_idempotent :
    ¬ (_clean_slack_id (_clean_slack_id (['@', '@', 'U', '1'])) =
       _clean_slack_id (['@', '@', 'U', '1'])) := by decide

/-! #### Claims C1, C2 and C8: pre-flight checks of award_points -/

/-- Claim C1: when an admin requester (not awarding to themselves) asks for
a positive amount exceeding the remaining weekly allowance, including a
remaining of zero, award_points stops at the allowance check with the
quota error carrying the allowance figures, and the trace contains no POST
to the award endpoint. -/
theorem award_points_quota_rejected (env : PointsEnv) (admin target : List Char)
    (points : Int) (reason : List Char) (al : Allowance)
    (hadm : env.isAdmin admin = true)
    (hal : env.adminAllowance admin = .okA al)
    (hpos : 0 < points)
    (hlt : al.remaining < points)
    (hself : ¬ admin = _clean_slack_id target) :
    award_points env admin target points reason =
      (.error (if al.remaining ≤ 0 then .quotaExhausted al.allowance
               else .quotaExceeded al.remaining al.allowance),
       [.isAdminCheck admin, .getAllowance admin]) ∧
    ∀ c ∈ (award_points env admin target points reason).2, c.isAwardPost = false := by
  have e : award_points env admin target points reason =
      (.error (if al.remaining ≤ 0 then .quotaExhausted al.allowance
               else .quotaExceeded al.remaining al.allowance),
       [.isAdminCheck admin, .getAllowance admin]) := by
    unfold award_points
    rw [if_neg (by rw [hadm]; simp), if_neg (fun hx => hself hx.1),
      if_neg (by omega), if_pos hpos, hal]
    dsimp only
    by_cases hr : al.remaining ≤ 0
    · rw [if_pos hr, if_pos hr]
    · rw [if_neg hr, if_pos hlt, if_neg hr]
  refine ⟨e, ?_⟩
  rw [e]
  intro c hc
  rcases List.mem_cons.mp hc with rfl | hc2
  · rfl
  · rcases List.mem_singleton.mp hc2 with rfl
    rfl

/-- Shared concrete points backend for the client witnesses: every
requester is an admin, the weekly allowance is ten with eight used and two
remaining, and the POST returns a zero balance. -/
def pe1 : PointsEnv :=
  ⟨fun _ => true, fun _ => .okA ⟨10, 8, 2⟩, fun _ => .ok 0⟩

/-- Witness for claim C1 at a concrete input. -/
theorem award_points_quota_rejected_witness :
    award_points pe1 ['U', 'A'] ['U', 'B'] 5 [] =
      (.error (.quotaExceeded 2 10), [.isAdminCheck ['U', 'A'], .getAllowance ['U', 'A']]) := by
  have h := (award_points_quota_rejected pe1 ['U', 'A'] ['U', 'B'] 5 [] ⟨10, 8, 2⟩
    rfl rfl (by decide) (by decide) (by decide)).1
  rw [if_neg (by decide)] at h
  exact h

/-- Claim C2: an admin awarding a positive amount to a target that cleans
to their own identity is stopped at the self-award check, whatever the
allowance state, and the trace contains no POST to the award endpoint. -/
theorem award_points_self_rejected (env : PointsEnv) (admin target : List Char)
    (points : Int) (reason : List Char)
    (hadm : env.isAdmin admin = true)
    (hself : _clean_slack_id target = admin)
    (hpos : 0 < points) :
    award_points env admin target points reason =
      (.error .selfAward, [.isAdminCheck admin]) ∧
    ∀ c ∈ (award_points env admin target points reason).2, c.isAwardPost = false := by
  have e : award_points env admin target points reason =
      (.error .selfAward, [.isAdminCheck admin]) := by
    unfold award_points
    rw [if_neg (by rw [hadm]; simp), if_pos ⟨hself.symm, hpos⟩]
  refine ⟨e, ?_⟩
  rw [e]
  intro c hc
  rcases List.mem_singleton.mp hc with rfl
  rfl

/-- Witness for claim C2 at a concrete input: the mention token of the
requester themselves. -/
theorem award_points_self_rejected_witness :
    award_points pe1 ['U', 'A'] ['<', '@', 'U', 'A', '>'] 5 [] =
      (.error .selfAward, [.isAdminCheck ['U', 'A']]) :=
  (award_points_self_rejected pe1 ['U', 'A'] ['<', '@', 'U', 'A', '>'] 5 []
    rfl (by decide) (by decide)).1

/-- Claim C8: the dispatcher refuses both deduction action names with the
fixed refusal before any backend interaction or authorization check (the
trace is empty), and a negative amount reaching the client award path
never POSTs and, for an admin requester, raises the fixed
deductions-disabled error. -/
theorem deduction_rejected :
    ∀ (env : ExecEnv) (p : AwardParams) (text user : List Char) (pe : PointsEnv)
      (admin target reason : List Char) (points : Int),
      (_handle_points_action env deduct_pointsA p text user = (.deductRefused, []) ∧
       _handle_points_action env deductA p text user = (.deductRefused, [])) ∧
      (points < 0 →
        (∀ c ∈ (award_points pe admin target points reason).2, c.isAwardPost = false) ∧
        (pe.isAdmin admin = true →
          award_points pe admin target points reason =
            (.error .deductDisabled, [.isAdminCheck admin]))) := by
  intro env p text user pe admin target reason points
  constructor
  · constructor
    · unfold _handle_points_action
      rw [if_pos (Or.inl rfl)]
    · unfold _handle_points_action
      rw [if_pos (Or.inr rfl)]
  · intro hneg
    have e2 : pe.isAdmin admin = true →
        award_points pe admin target points reason =
          (.error .deductDisabled, [.isAdminCheck admin]) := by
      intro hadm
      unfold award_points
      rw [if_neg (by rw [hadm]; simp), if_neg (fun hx => absurd hx.2 (by omega)),
        if_pos hneg]
    refine ⟨?_, e2⟩
    by_cases hadm : pe.isAdmin admin = true
    · rw [e2 hadm]
      intro c hc
      rcases List.mem_singleton.mp hc with rfl
      rfl
    · have hf : pe.isAdmin admin = false := by
        cases hb : pe.isAdmin admin
        · rfl
        · exact absurd hb hadm
      unfold award_points
      rw [if_pos hf]
      intro c hc
      rcases List.mem_singleton.mp hc with rfl
      rfl

/-- Shared concrete executor environment for witnesses: the pe1 backend,
no bot id, an empty rate card and empty linking tables. -/
def ee1 : ExecEnv := ⟨pe1, none, [], fun _ => none, fun _ => none, fun _ _ => none⟩

/-- Shared empty parameter record for witnesses. -/
def ap0 : AwardParams := ⟨0, none, [], [], []⟩

/-- Witness for claim C8 at concrete inputs. -/
theorem deduction_rejected_witness :
    _handle_points_action ee1 deduct_pointsA ap0 [] ['U', 'A'] = (.deductRefused, []) ∧
    award_points pe1 ['U', 'A'] ['U', 'B'] (-3) [] =
      (.error .deductDisabled, [.isAdminCheck ['U', 'A']]) := by
  have h := deduction_rejected ee1 ap0 [] ['U', 'A'] pe1 ['U', 'A'] ['U', 'B'] [] (-3)
  exact ⟨h.1.1, (h.2 (by decide)).2 rfl⟩

/-! #### Claim C3: quest tracker invariants -/

lemma setAt_same (f : List Char → List Char → α) (u q : List Char) (v : α) :
    setAt f u q v u q = v := by simp [setAt]

lemma setAt_other (f : List Char → List Char → α) (u q u' q' : List Char) (v : α)
    (h : ¬ (u' = u ∧ q' = q)) : setAt f u q v u' q' = f u' q' := by
  simp only [setAt, if_neg h]

lemma update_progress_eq_none (s : QuestState) (e : QEvent)
    (h : QUESTS.lookup e.quest = none) : _update_progress s e = s := by
  unfold _update_progress
  rw [h]

/-- Unfolded form of one tracker step once the quest definition is
resolved. -/
def stepBody (s : QuestState) (e : QEvent) (qd : QuestDef) : QuestState :=
  if s.completed e.user e.quest then s
  else
    let current := s.progress e.user e.quest + 1
    let s1 := { s with progress := setAt s.progress e.user e.quest current }
    if qd.target_count ≤ current then
      { s1 with
        completed := setAt s1.completed e.user e.quest true,
        completions := setAt s1.completions e.user e.quest
          (s1.completions e.user e.quest + 1),
        awardPosts := setAt s1.awardPosts e.user e.quest
          (s1.awardPosts e.user e.quest + (if e.ctx.botIdPresent then 1 else 0)) }
    else s1

lemma update_progress_eq_some (s : QuestState) (e : QEvent) (qd : QuestDef)
    (h : QUESTS.lookup e.quest = some qd) : _update_progress s e = stepBody s e qd := by
  unfold _update_progress stepBody
  rw [h]

lemma update_progress_mono (s : QuestState) (e : QEvent) (u q : List Char) :
    s.progress u q ≤ (_update_progress s e).progress u q := by
  rcases hq : QUESTS.lookup e.quest with _ | qd
  · rw [update_progress_eq_none s e hq]
  · rw [update_progress_eq_some s e qd hq]
    unfold stepBody
    by_cases hc : s.completed e.user e.quest
    · rw [if_pos hc]
    · rw [if_neg hc]
      dsimp only
      by_cases hk : u = e.user ∧ q = e.quest
      · by_cases ht : qd.target_count ≤ s.progress e.user e.quest + 1
        · rw [if_pos ht]
          dsimp only
          rw [hk.1, hk.2, setAt_same]
          omega
        · rw [if_neg ht]
          dsimp only
          rw [hk.1, hk.2, setAt_same]
          omega
      · by_cases ht : qd.target_count ≤ s.progress e.user e.quest + 1
        · rw [if_pos ht]
          dsimp only
          rw [setAt_other _ _ _ _ _ _ hk]
        · rw [if_neg ht]
          dsimp only
          rw [setAt_other _ _ _ _ _ _ hk]

lemma update_progress_frozen (s : QuestState) (e : QEvent) (u q : List Char)
    (hc : s.completed u q = true) :
    (_update_progress s e).progress u q = s.progress u q ∧
    (_update_progress s e).completed u q = true ∧
    (_update_progress s e).completions u q = s.completions u q ∧
    (_update_progress s e).awardPosts u q = s.awardPosts u q := by
  rcases hq : QUESTS.lookup e.quest with _ | qd
  · rw [update_progress_eq_none s e hq]
    exact ⟨rfl, hc, rfl, rfl⟩
  · rw [update_progress_eq_some s e qd hq]
    unfold stepBody
    by_cases hce : s.completed e.user e.quest
    · rw [if_pos hce]
      exact ⟨rfl, hc, rfl, rfl⟩
    · rw [if_neg hce]
      have hk : ¬ (u = e.user ∧ q = e.quest) := by
        rintro ⟨rfl, rfl⟩
        exact hce hc
      dsimp only
      by_cases ht : qd.target_count ≤ s.progress e.user e.quest + 1
      · rw [if_pos ht]
        dsimp only
        rw [setAt_other _ _ _ _ _ _ hk, setAt_other _ _ _ _ _ _ hk,
          setAt_other _ _ _ _ _ _ hk, setAt_other _ _ _ _ _ _ hk]
        exact ⟨rfl, hc, rfl, rfl⟩
      · rw [if_neg ht]
        dsimp only
        rw [setAt_other _ _ _ _ _ _ hk]
        exact ⟨rfl, hc, rfl, rfl⟩

lemma update_progress_award_completes (s : QuestState) (e : QEvent) (u q : List Char)
    (h : (_update_progress s e).awardPosts u q ≠ s.awardPosts u q) :
    (_update_progress s e).completed u q = true := by
  by_cases hc : s.completed u q
  · exact (update_progress_frozen s e u q hc).2.1
  · rcases hq : QUESTS.lookup e.quest with _ | qd
    · rw [update_progress_eq_none s e hq] at h
      exact absurd rfl h
    · rw [update_progress_eq_some s e qd hq] at h ⊢
      unfold stepBody at h ⊢
      by_cases hce : s.completed e.user e.quest
      · rw [if_pos hce] at h
        exact absurd rfl h
      · rw [if_neg hce] at h ⊢
        dsimp only at h ⊢
        by_cases ht : qd.target_count ≤ s.progress e.user e.quest + 1
        · rw [if_pos ht] at h ⊢
          dsimp only at h ⊢
          by_cases hk : u = e.user ∧ q = e.quest
          · rw [hk.1, hk.2, setAt_same]
          · rw [setAt_other _ _ _ _ _ _ hk] at h
            exact absurd rfl h
        · rw [if_neg ht] at h ⊢
          exact absurd rfl h

/-- The per-pair bookkeeping invariant: an uncompleted pair has fired no
completion and no POST, completions never exceed one, and POSTs never
exceed completions. -/
def QuestInv (s : QuestState) : Prop :=
  ∀ u q : List Char,
    (s.completed u q = false → s.completions u q = 0 ∧ s.awardPosts u q = 0) ∧
    s.completions u q ≤ 1 ∧ s.awardPosts u q ≤ s.completions u q

lemma quest_inv_init : QuestInv initQuestState := by
  intro u q
  exact ⟨fun _ => ⟨rfl, rfl⟩, by simp [initQuestState], by simp [initQuestState]⟩

lemma quest_inv_step (s : QuestState) (e : QEvent) (h : QuestInv s) :
    QuestInv (_update_progress s e) := by
  intro u q
  by_cases hc : s.completed u q
  · have hf := update_progress_frozen s e u q hc
    rw [hf.2.1, hf.2.2.1, hf.2.2.2]
    refine ⟨fun hfalse => by simp at hfalse, (h u q).2.1, (h u q).2.2⟩
  · rcases hq : QUESTS.lookup e.quest with _ | qd
    · rw [update_progress_eq_none s e hq]
      exact h u q
    · rw [update_progress_eq_some s e qd hq]
      unfold stepBody
      by_cases hce : s.completed e.user e.quest
      · rw [if_pos hce]
        exact h u q
      · rw [if_neg hce]
        dsimp only
        by_cases ht : qd.target_count ≤ s.progress e.user e.quest + 1
        · rw [if_pos ht]
          dsimp only
          by_cases hk : u = e.user ∧ q = e.quest
          · rw [hk.1, hk.2, setAt_same, setAt_same, setAt_same]
            have hce0 := (h e.user e.quest).1 (by simpa using hce)
            rw [hce0.1, hce0.2]
            refine ⟨fun hfalse => by simp at hfalse, by omega, by
              cases e.ctx.botIdPresent <;> simp⟩
          · rw [setAt_other _ _ _ _ _ _ hk, setAt_other _ _ _ _ _ _ hk,
              setAt_other _ _ _ _ _ _ hk]
            exact h u q
        · rw [if_neg ht]
          dsimp only
          exact h u q

lemma quest_inv_run (s : QuestState) (evs : List QEvent) (h : QuestInv s) :
    QuestInv (runQuests s evs) := by
  induction evs generalizing s with
  | nil => exact h
  | cons e rest ih => exact ih _ (quest_inv_step s e h)

lemma runQuests_mono (s : QuestState) (evs : List QEvent) (u q : List Char) :
    s.progress u q ≤ (runQuests s evs).progress u q := by
  induction evs generalizing s with
  | nil => exact le_refl _
  | cons e rest ih =>
      exact le_trans (update_progress_mono s e u q) (ih (_update_progress s e))

lemma runQuests_completed (s : QuestState) (evs : List QEvent) (u q : List Char)
    (hc : s.completed u q = true) : (runQuests s evs).completed u q = true := by
  induction evs generalizing s with
  | nil => exact hc
  | cons e rest ih =>
      exact ih (_update_progress s e) (update_progress_frozen s e u q hc).2.1

/-- Claim C3: per (user, quest) pair the stored count never decreases over
any delivery sequence, a completed pair is frozen (no further increments,
completions or POSTs, and the marker is never rolled back), an award POST
can only appear together with the completion marker, from a fresh state at
most one completion fires and at most one POST is attempted per pair even
under duplicate delivery, and the tracker state does not depend on whether
the backend award call fails. -/
theorem quest_progress_invariants :
    ∀ (s : QuestState) (e : QEvent) (evs : List QEvent) (u q u0 q0 : List Char)
      (b f1 f2 : Bool),
      (s.progress u q ≤ (_update_progress s e).progress u q) ∧
      (s.progress u q ≤ (runQuests s evs).progress u q) ∧
      (s.completed u q = true →
        (_update_progress s e).progress u q = s.progress u q ∧
        (_update_progress s e).completions u q = s.completions u q ∧
        (_update_progress s e).awardPosts u q = s.awardPosts u q) ∧
      (s.completed u q = true → (runQuests s evs).completed u q = true) ∧
      ((_update_progress s e).awardPosts u q ≠ s.awardPosts u q →
        (_update_progress s e).completed u q = true) ∧
      ((runQuests initQuestState evs).completions u q ≤ 1 ∧
       (runQuests initQuestState evs).awardPosts u q ≤ 1) ∧
      (_update_progress s ⟨u0, q0, ⟨b, f1⟩⟩ = _update_progress s ⟨u0, q0, ⟨b, f2⟩⟩) := by
  intro s e evs u q u0 q0 b f1 f2
  have hrun := quest_inv_run initQuestState evs quest_inv_init u q
  refine ⟨update_progress_mono s e u q, runQuests_mono s evs u q,
    fun hc =>
      ⟨(update_progress_frozen s e u q hc).1, (update_progress_frozen s e u q hc).2.2.1,
       (update_progress_frozen s e u q hc).2.2.2⟩,
    fun hc => runQuests_completed s evs u q hc,
    fun h => update_progress_award_completes s e u q h,
    ⟨hrun.2.1, le_trans hrun.2.2 hrun.2.1⟩, rfl⟩

/-- Witness for claim C3: a duplicate delivery of the same qualifying
event for a one-shot quest completes it once, attempts exactly one POST,
and the second delivery changes nothing; the frozen-pair hypotheses are
discharged on the completed state. -/
theorem quest_progress_invariants_witness :
    ((runQuests initQuestState
        [⟨['u'], ['s', 'h', 'o', 'w', '_', 'o', 'f', 'f'], ⟨true, true⟩⟩,
         ⟨['u'], ['s', 'h', 'o', 'w', '_', 'o', 'f', 'f'], ⟨true, true⟩⟩]).completions
        ['u'] ['s', 'h', 'o', 'w', '_', 'o', 'f', 'f'] ≤ 1 ∧
     (runQuests initQuestState
        [⟨['u'], ['s', 'h', 'o', 'w', '_', 'o', 'f', 'f'], ⟨true, true⟩⟩,
         ⟨['u'], ['s', 'h', 'o', 'w', '_', 'o', 'f', 'f'], ⟨true, true⟩⟩]).awardPosts
        ['u'] ['s', 'h', 'o', 'w', '_', 'o', 'f', 'f'] ≤ 1) ∧
    ((runQuests initQuestState
        [⟨['u'], ['s', 'h', 'o', 'w', '_', 'o', 'f', 'f'], ⟨true, true⟩⟩]).completed
        ['u'] ['s', 'h', 'o', 'w', '_', 'o', 'f', 'f'] = true ∧
     (_update_progress
        (runQuests initQuestState
          [⟨['u'], ['s', 'h', 'o', 'w', '_', 'o', 'f', 'f'], ⟨true, true⟩⟩])
        ⟨['u'], ['s', 'h', 'o', 'w', '_', 'o', 'f', 'f'], ⟨true, true⟩⟩).completions
        ['u'] ['s', 'h', 'o', 'w', '_', 'o', 'f', 'f'] =
      (runQuests initQuestState
        [⟨['u'], ['s', 'h', 'o', 'w', '_', 'o', 'f', 'f'], ⟨true, true⟩⟩]).completions
        ['u'] ['s', 'h', 'o', 'w', '_', 'o', 'f', 'f']) := by
  have h := quest_progress_invariants
    (runQuests initQuestState
      [⟨['u'], ['s', 'h', 'o', 'w', '_', 'o', 'f', 'f'], ⟨true, true⟩⟩])
    ⟨['u'], ['s', 'h', 'o', 'w', '_', 'o', 'f', 'f'], ⟨true, true⟩⟩
    [⟨['u'], ['s', 'h', 'o', 'w', '_', 'o', 'f', 'f'], ⟨true, true⟩⟩,
     ⟨['u'], ['s', 'h', 'o', 'w', '_', 'o', 'f', 'f'], ⟨true, true⟩⟩]
    ['u'] ['s', 'h', 'o', 'w', '_', 'o', 'f', 'f'] ['u']
    ['s', 'h', 'o', 'w', '_', 'o', 'f', 'f'] true true true
  exact ⟨h.2.2.2.2.2.1, by decide, (h.2.2.1 (by decide)).2.1⟩

/-! #### Claims C4, C5 and C6: the agent fast path -/

/-- Date argument the fast path passes to each action: the booking and
cancellation commands receive the system-local today, the queries none. -/
def fastDateArg (env : AgentEnv) (a : FastAction) : Option (List Char) :=
  match a with
  | .book_coworking => some env.systemToday
  | .cancel_coworking => some env.systemToday
  | _ => none

/-- Channel argument the fast path passes to each action: only the booking
command forwards the channel. -/
def fastChanArg (a : FastAction) (chan : Option (List Char)) : Option (List Char) :=
  match a with
  | .book_coworking => chan
  | _ => none

/-- The single backend call of each fast action. -/
def fastCallOf (user : List Char) (a : FastAction) (dateArg chanArg : Option (List Char)) :
    ACall :=
  match a with
  | .balance => .getBalance user
  | .list_tasks => .listTasks
  | .list_rewards => .listRewards user
  | .book_coworking => .bookCoworking user (dateArg.getD []) chanArg
  | .cancel_coworking => .cancelCoworking user (dateArg.getD [])

lemma fastStep_snd (env : AgentEnv) (user : List Char) (a : FastAction)
    (dateArg chanArg : Option (List Char)) :
    (fastStep env user a dateArg chanArg).2 = [fastCallOf user a dateArg chanArg] := by
  cases a <;> rfl

lemma fastCallOf_ne_select (user : List Char) (a : FastAction)
    (dateArg chanArg : Option (List Char)) (t : List Char) :
    fastCallOf user a dateArg chanArg ≠ ACall.selectSkill t := by
  cases a <;> simp [fastCallOf]

lemma try_fast_eq (env : AgentEnv) (ct user : List Char) (chan : Option (List Char))
    (a : FastAction) (hm : fastPatternMatch (lowList (pyStrip ct)) = some a) :
    _try_fast_path env ct user chan =
      _execute_fast_points env user a (fastDateArg env a) (fastChanArg a chan) := by
  cases a <;> (unfold _try_fast_path; simp only [hm]) <;> rfl

lemma execute_fast_eq (env : AgentEnv) (user : List Char) (a : FastAction)
    (dateArg chanArg : Option (List Char)) (sk : SkillInfo)
    (hsk : env.skills.find? (fun s => s.name == mlaiPointsName) = some sk)
    (hcl : sk.hasPointsClient = true) :
    _execute_fast_points env user a dateArg chanArg =
      (match (fastStep env user a dateArg chanArg).1 with
       | .ok m => (some ⟨.fastMsg m, some fastTag, none⟩,
                   (fastStep env user a dateArg chanArg).2)
       | .error e => (some ⟨.fastMsg .fastApology, some fastErrorTag, some e⟩,
                      (fastStep env user a dateArg chanArg).2)) := by
  unfold _execute_fast_points
  rw [hsk]
  show (if sk.hasPointsClient = false then ((none : Option HandleRes), ([] : List ACall))
        else _) = _
  rw [hcl]
  rw [if_neg (by simp)]

lemma handle_mention_fast (env : AgentEnv) (text user : List Char)
    (chan : Option (List Char)) (r : HandleRes)
    (hfp : (_try_fast_path env (_clean_mention env.botId text) user chan).1 = some r) :
    handle_mention env text user chan =
      (r, (_try_fast_path env (_clean_mention env.botId text) user chan).2) := by
  unfold handle_mention
  simp only [hfp]

/-- Claim C4 (amended): when the normalized text matches a fast-path
pattern and a skill named mlai-points exposing the PointsClient is loaded,
handle_mention returns the fast-path result directly and its trace never
contains a selector invocation; without the loaded points skill the
fast-path lookup yields no result and selection proceeds. -/
theorem fast_path_short_circuit (env : AgentEnv) (text user : List Char)
    (chan : Option (List Char)) (a : FastAction) (sk : SkillInfo)
    (hm : fastPatternMatch (lowList (pyStrip (_clean_mention env.botId text))) = some a)
    (hsk : env.skills.find? (fun s => s.name == mlaiPointsName) = some sk)
    (hcl : sk.hasPointsClient = true) :
    (∃ r : HandleRes,
      (_try_fast_path env (_clean_mention env.botId text) user chan).1 = some r ∧
      handle_mention env text user chan =
        (r, [fastCallOf user a (fastDateArg env a) (fastChanArg a chan)])) ∧
    ∀ t : List Char, ACall.selectSkill t ∉ (handle_mention env text user chan).2 := by
  have ht := try_fast_eq env (_clean_mention env.botId text) user chan a hm
  have he := execute_fast_eq env user a (fastDateArg env a) (fastChanArg a chan) sk hsk hcl
  have hs := fastStep_snd env user a (fastDateArg env a) (fastChanArg a chan)
  have hsome : ∃ r : HandleRes,
      (_try_fast_path env (_clean_mention env.botId text) user chan).1 = some r := by
    rw [ht, he]
    cases hfs : (fastStep env user a (fastDateArg env a) (fastChanArg a chan)).1 with
    | ok m => exact ⟨_, rfl⟩
    | error e => exact ⟨_, rfl⟩
  obtain ⟨r, hr⟩ := hsome
  have hmain := handle_mention_fast env text user chan r hr
  have htr : (_try_fast_path env (_clean_mention env.botId text) user chan).2 =
      [fastCallOf user a (fastDateArg env a) (fastChanArg a chan)] := by
    rw [ht, he]
    cases hfs : (fastStep env user a (fastDateArg env a) (fastChanArg a chan)).1 with
    | ok m => exact hs
    | error e => exact hs
  refine ⟨⟨r, hr, by rw [hmain, htr]⟩, ?_⟩
  intro t
  rw [hmain, htr]
  intro hmem
  rcases List.mem_singleton.mp hmem with h
  exact fastCallOf_ne_select user a (fastDateArg env a) (fastChanArg a chan) t h.symm

/-- Trivial backend outcomes for the agent witnesses. -/
def fb0 : FastBackend :=
  ⟨.ok ⟨0, 0⟩, .ok [], .ok [], fun _ _ => .ok ⟨3⟩, fun _ => .ok ⟨1⟩⟩

/-- A first concrete date, standing for the system-local today. -/
def dateA : List Char := ['2', '0', '2', '5', '-', '0', '1', '-', '0', '1']

/-- A second concrete date, standing for the configured-timezone today on
a day where the two time zones disagree. -/
def dateB : List Char := ['2', '0', '2', '5', '-', '0', '1', '-', '0', '2']

/-- Skill table with the points skill and its client loaded. -/
def envSkills : List SkillInfo := [⟨mlaiPointsName, true⟩]

/-- Agent environment without any loaded skill. -/
def envC4 : AgentEnv :=
  ⟨[], none, fb0, dateA, dateB, fun _ => none, fun _ _ => [], fun _ => []⟩

/-- Agent environment with the points skill loaded and a healthy backend,
on a day where the system and configured dates disagree. -/
def envC6 : AgentEnv :=
  ⟨envSkills, none, fb0, dateA, dateB, fun _ => none, fun _ _ => [], fun _ => []⟩

/-- Agent environment whose balance call raises. -/
def fbErr : FastBackend :=
  ⟨.error ['b', 'o', 'o', 'm'], .ok [], .ok [], fun _ _ => .ok ⟨3⟩, fun _ => .ok ⟨1⟩⟩

/-- Agent environment with the points skill loaded whose direct balance
call raises. -/
def envC5 : AgentEnv :=
  ⟨envSkills, none, fbErr, dateA, dateB, fun _ => none, fun _ _ => [], fun _ => []⟩

/-- Witness for the amended claim C4 at a concrete input. -/
theorem fast_path_short_circuit_witness :
    ACall.selectSkill pointsW ∉ (handle_mention envC6 pointsW ['U', '1'] none).2 :=
  (fast_path_short_circuit envC6 pointsW ['U', '1'] none .balance ⟨mlaiPointsName, true⟩
    (by decide) (by decide) rfl).2 pointsW

/-- Counterexample to claim C4 as stated: on a deployment without the
loaded points skill, the input points matches the balance fast-path
pattern yet handle_mention does invoke the skill selector. -/
theorem fast_path_selector_cex :
    fastPatternMatch (lowList (pyStrip (_clean_mention envC4.botId pointsW))) =
      some .balance ∧
    ACall.selectSkill pointsW ∈ (handle_mention envC4 pointsW ['U', '1'] none).2 := by
  decide

/-- Claim C5: on a fast-path hit whose direct backend call raises, the
exception is caught and handle_mention returns the non-failing degraded
result: the fixed apology message, the fast-error tag classified as
upstream_unavailable, and the stringified exception as the data error (the
function returns this value instead of propagating, so no exception
reaches the caller). -/
theorem fast_path_error_degraded (env : AgentEnv) (text user : List Char)
    (chan : Option (List Char)) (a : FastAction) (sk : SkillInfo) (e : List Char)
    (hm : fastPatternMatch (lowList (pyStrip (_clean_mention env.botId text))) = some a)
    (hsk : env.skills.find? (fun s => s.name == mlaiPointsName) = some sk)
    (hcl : sk.hasPointsClient = true)
    (herr : (fastStep env user a (fastDateArg env a) (fastChanArg a chan)).1 = .error e) :
    handle_mention env text user chan =
      (⟨.fastMsg .fastApology, some fastErrorTag, some e⟩,
       [fastCallOf user a (fastDateArg env a) (fastChanArg a chan)]) ∧
    errorKindOf (handle_mention env text user chan).1 = some .upstream_unavailable := by
  have ht := try_fast_eq env (_clean_mention env.botId text) user chan a hm
  have he := execute_fast_eq env user a (fastDateArg env a) (fastChanArg a chan) sk hsk hcl
  have hs := fastStep_snd env user a (fastDateArg env a) (fastChanArg a chan)
  rw [herr] at he
  have hr : (_try_fast_path env (_clean_mention env.botId text) user chan).1 =
      some ⟨.fastMsg .fastApology, some fastErrorTag, some e⟩ := by
    rw [ht, he]
  have hmain := handle_mention_fast env text user chan _ hr
  have htr : (_try_fast_path env (_clean_mention env.botId text) user chan).2 =
      [fastCallOf user a (fastDateArg env a) (fastChanArg a chan)] := by
    rw [ht, he, ← hs]
  refine ⟨by rw [hmain, htr], ?_⟩
  rw [hmain]
  rfl

/-- Witness for claim C5 at a concrete input: the balance call raises. -/
theorem fast_path_error_degraded_witness :
    handle_mention envC5 pointsW ['U', '1'] none =
      (⟨.fastMsg .fastApology, some fastErrorTag, some ['b', 'o', 'o', 'm']⟩,
       [.getBalance ['U', '1']]) ∧
    errorKindOf (handle_mention envC5 pointsW ['U', '1'] none).1 =
      some .upstream_unavailable :=
  fast_path_error_degraded envC5 pointsW ['U', '1'] none .balance ⟨mlaiPointsName, true⟩
    ['b', 'o', 'o', 'm'] (by decide) (by decide) rfl rfl

/-- The fast-path booking command text. -/
def bookTodayText : List Char := coworkingW ++ [' '] ++ bookW ++ [' '] ++ todayW

/-- Claim C6 (amended): the book-today fast path issues exactly one
booking request and its date parameter is the system-local today as read
by date.today (not the configured-timezone date of get_current_date), and
the response message echoes the points cost returned by the backend. -/
theorem fast_book_system_date (env : AgentEnv) (text user : List Char)
    (chan : Option (List Char)) (sk : SkillInfo) (b : BookData)
    (hm : fastPatternMatch (lowList (pyStrip (_clean_mention env.botId text))) =
      some .book_coworking)
    (hsk : env.skills.find? (fun s => s.name == mlaiPointsName) = some sk)
    (hcl : sk.hasPointsClient = true)
    (hb : env.fb.book env.systemToday chan = .ok b) :
    handle_mention env text user chan =
      (⟨.fastMsg (.bookedToday env.systemToday b.points_cost), some fastTag, none⟩,
       [.bookCoworking user env.systemToday chan]) := by
  have ht := try_fast_eq env (_clean_mention env.botId text) user chan .book_coworking hm
  have he := execute_fast_eq env user .book_coworking (fastDateArg env .book_coworking)
    (fastChanArg .book_coworking chan) sk hsk hcl
  have hfs : (fastStep env user .book_coworking (fastDateArg env .book_coworking)
      (fastChanArg .book_coworking chan)).1 =
      .ok (.bookedToday env.systemToday b.points_cost) := by
    show (env.fb.book env.systemToday chan).map _ = _
    rw [hb]
    rfl
  rw [hfs] at he
  have hr : (_try_fast_path env (_clean_mention env.botId text) user chan).1 =
      some ⟨.fastMsg (.bookedToday env.systemToday b.points_cost), some fastTag, none⟩ := by
    rw [ht, he]
  have hmain := handle_mention_fast env text user chan _ hr
  have htr : (_try_fast_path env (_clean_mention env.botId text) user chan).2 =
      [.bookCoworking user env.systemToday chan] := by
    rw [ht, he]
    exact fastStep_snd env user .book_coworking _ _
  rw [hmain, htr]

/-- Witness for the amended claim C6 at a concrete input. -/
theorem fast_book_system_date_witness :
    handle_mention envC6 bookTodayText ['U', '1'] none =
      (⟨.fastMsg (.bookedToday envC6.systemToday 3), some fastTag, none⟩,
       [.bookCoworking ['U', '1'] envC6.systemToday none]) :=
  fast_book_system_date envC6 bookTodayText ['U', '1'] none ⟨mlaiPointsName, true⟩ ⟨3⟩
    (by decide) (by decide) rfl rfl

/-- Counterexample to claim C6 as stated: on a day where the system time
zone and the configured TIMEZONE disagree about today, the fast path books
the system date, which is not the configured-timezone date returned by
get_current_date. -/
theorem fast_book_timezone_cex :
    (handle_mention envC6 bookTodayText ['U', '1'] none).2 =
      [.bookCoworking ['U', '1'] dateA none] ∧
    ¬ dateA = get_current_date envC6 := by decide

/-! #### Claim C9: amount resolution from raw text -/

lemma not_letter_lowChar (c : Char) (h : isLttr c = false) : isLttr (lowChar c) = false := by
  have hup : isUpperAZ c = false := by
    unfold isLttr at h
    exact (Bool.or_eq_false_iff.mp h).1
  unfold lowChar
  rw [if_neg (by rw [hup]; simp)]
  exact h

lemma digit_not_letter (c : Char) (h : isDigitC c = true) : isLttr c = false := by
  unfold isDigitC at h
  unfold isLttr isUpperAZ isLowerAZ
  simp only [Bool.and_eq_true, decide_eq_true_eq] at h
  simp only [Bool.or_eq_false_iff, Bool.and_eq_false_iff, decide_eq_false_iff_not]
  omega

lemma pySpace_not_letter (c : Char) (h : isPySpace c = true) : isLttr c = false := by
  unfold isPySpace at h
  simp only [Bool.or_eq_true, decide_eq_true_eq] at h
  rcases h with ((((h | h) | h) | h) | h) | h <;> subst h <;> decide

lemma infix_through_nonletters (t a b : List Char)
    (ha : ∀ c ∈ a, isLttr c = false) (ht : ∀ c ∈ t, isLttr c = true) (hne : t ≠ []) :
    (t <:+: a ++ b) ↔ (t <:+: b) := by
  induction a with
  | nil => simp
  | cons x xs ih =>
      have hxs : ∀ c ∈ xs, isLttr c = false := fun c hc => ha c (List.mem_cons_of_mem x hc)
      constructor
      · intro h
        rcases List.infix_cons_iff.mp h with hp | hi
        · rcases t with _ | ⟨c, t'⟩
          · exact absurd rfl hne
          · rcases hp with ⟨r, hr⟩
            have hcx : c = x := by
              have h' := hr
              simp only [List.cons_append, List.cons.injEq] at h'
              exact h'.1
            have h1 : isLttr x = true := hcx ▸ ht c (List.mem_cons_self c t')
            have h2 : isLttr x = false := ha x (List.mem_cons_self x xs)
            rw [h1] at h2
            exact absurd h2 (by simp)
        · exact (ih hxs).mp hi
      · intro h
        exact List.infix_cons ((ih hxs).mpr h)

lemma matchUnit_shape (s : List Char) :
    lowList (matchUnit s).1 ∈ ([[], ptU, ptsU, pointU, pointsW] : List (List Char)) := by
  unfold matchUnit
  split_ifs with h1 h2 h3 h4
  · dsimp only
    rw [eq_of_beq h1]
    decide
  · dsimp only
    rw [eq_of_beq h2]
    decide
  · dsimp only
    rw [eq_of_beq h3]
    decide
  · dsimp only
    rw [eq_of_beq h4]
    decide
  · dsimp only
    decide

lemma splitSign_sign (s : List Char) :
    (splitSign s).1 = none ∨ (splitSign s).1 = some '+' ∨ (splitSign s).1 = some '-' := by
  cases s with
  | nil => exact Or.inl rfl
  | cons c r =>
      by_cases h1 : c = '+'
      · subst h1
        exact Or.inr (Or.inl rfl)
      · by_cases h2 : c = '-'
        · subst h2
          exact Or.inr (Or.inr rfl)
        · left
          show (if c = '+' then ((some '+' : Option Char), r)
                else if c = '-' then (some '-', r)
                else ((none : Option Char), c :: r)).1 = none
          rw [if_neg h1, if_neg h2]

lemma matchAmountAt_shape (prev : Option Char) (s : List Char) (m : AmountMatch)
    (h : matchAmountAt prev s = some m) :
    (∀ c ∈ m.numStr, isLttr c = false) ∧ (∀ c ∈ m.ws, isPySpace c = true) ∧
    lowList m.unitStr ∈ ([[], ptU, ptsU, pointU, pointsW] : List (List Char)) := by
  unfold matchAmountAt at h
  by_cases hlp : letterPrev prev = true
  · rw [if_pos hlp] at h
    exact absurd h (by simp)
  · rw [if_neg hlp] at h
    dsimp only at h
    by_cases hd : ((splitSign s).2.takeWhile isDigitC).isEmpty = true
    · rw [if_pos hd] at h
      exact absurd h (by simp)
    · rw [if_neg hd] at h
      obtain rfl := (Option.some.inj h).symm
      refine ⟨?_, fun c hc => List.mem_takeWhile_imp hc, matchUnit_shape _⟩
      intro c hc
      rcases List.mem_append.mp hc with hs | hdig
      · rcases splitSign_sign s with h0 | h0 | h0 <;> rw [h0] at hs
        · exact absurd hs (by simp [signChars])
        · have : c = '+' := by simpa [signChars] using hs
          subst this
          decide
        · have : c = '-' := by simpa [signChars] using hs
          subst this
          decide
      · exact digit_not_letter c (List.mem_takeWhile_imp hdig)

lemma findAmountGo_shape :
    ∀ (fuel : Nat) (prev : Option Char) (s : List Char) (m : AmountMatch),
      findAmountGo fuel prev s = some m →
      (∀ c ∈ m.numStr, isLttr c = false) ∧ (∀ c ∈ m.ws, isPySpace c = true) ∧
      lowList m.unitStr ∈ ([[], ptU, ptsU, pointU, pointsW] : List (List Char)) := by
  intro fuel
  induction fuel with
  | zero =>
      intro prev s m h
      cases s <;> simp [findAmountGo] at h
  | succ f ih =>
      intro prev s m h
      cases s with
      | nil => simp [findAmountGo] at h
      | cons c cs =>
          unfold findAmountGo at h
          cases hm : matchAmountAt prev (c :: cs) with
          | some m' =>
              simp only [hm] at h
              obtain rfl := Option.some.inj h
              exact matchAmountAt_shape _ _ _ hm
          | none =>
              simp only [hm] at h
              exact ih (some c) cs m h

lemma findAmount_shape (s : List Char) (m : AmountMatch) (h : findAmount s = some m) :
    (∀ c ∈ m.numStr, isLttr c = false) ∧ (∀ c ∈ m.ws, isPySpace c = true) ∧
    lowList m.unitStr ∈ ([[], ptU, ptsU, pointU, pointsW] : List (List Char)) :=
  findAmountGo_shape s.length none s m h

lemma hasUnitKeyword_iff (m : AmountMatch)
    (hnum : ∀ c ∈ m.numStr, isLttr c = false)
    (hws : ∀ c ∈ m.ws, isPySpace c = true)
    (hu : lowList m.unitStr ∈ ([[], ptU, ptsU, pointU, pointsW] : List (List Char))) :
    hasUnitKeyword m = true ↔
      (lowList m.unitStr = pointU ∨ lowList m.unitStr = pointsW ∨
       lowList m.unitStr = ptsU) := by
  have ha : ∀ c ∈ lowList (m.numStr ++ m.ws), isLttr c = false := by
    intro c hc
    rcases List.mem_map.mp hc with ⟨c0, hc0, rfl⟩
    rcases List.mem_append.mp hc0 with h0 | h0
    · exact not_letter_lowChar c0 (hnum c0 h0)
    · exact not_letter_lowChar c0 (pySpace_not_letter c0 (hws c0 h0))
  have hg : lowList (g0 m) = lowList (m.numStr ++ m.ws) ++ lowList m.unitStr := by
    unfold g0 lowList
    simp [List.append_assoc]
  have hpoint : (pointU <:+: lowList (g0 m)) ↔ (pointU <:+: lowList m.unitStr) := by
    rw [hg]
    exact infix_through_nonletters pointU _ _ ha (by decide) (by decide)
  have hpts : (ptsU <:+: lowList (g0 m)) ↔ (ptsU <:+: lowList m.unitStr) := by
    rw [hg]
    exact infix_through_nonletters ptsU _ _ ha (by decide) (by decide)
  unfold hasUnitKeyword
  rw [Bool.or_eq_true]
  simp only [decide_eq_true_eq]
  rw [hpoint, hpts]
  simp only [List.mem_cons, List.not_mem_nil, or_false, List.mem_singleton] at hu
  rcases hu with h | h | h | h | h <;> rw [h] <;> decide

/-- Claim C9 (amended): when the extracted parameters carry no amount and
the raw text yields a first regex match, that value becomes the award
amount exactly when the matched unit word lowers to point, points or pts,
or its absolute value is below one thousand; a match of one thousand or
more whose unit is the bare word pt (or absent) is ignored and the amount
stays undetermined, deferring to the rate card. -/
theorem amount_resolution_iff :
    ∀ (text : List Char) (m : AmountMatch),
      findAmount text = some m →
      ((m.value ≠ 0 →
        (resolveAmount 0 text = m.value ↔
          (lowList m.unitStr = pointU ∨ lowList m.unitStr = pointsW ∨
           lowList m.unitStr = ptsU ∨ m.value.natAbs < 1000))) ∧
       (lowList m.unitStr = ptU → ¬ m.value.natAbs < 1000 → resolveAmount 0 text = 0)) := by
  intro text m hf
  obtain ⟨hnum, hws, hu⟩ := findAmount_shape text m hf
  have hk := hasUnitKeyword_iff m hnum hws hu
  have hres : resolveAmount 0 text =
      (if hasUnitKeyword m || m.value.natAbs < 1000 then m.value else 0) := by
    unfold resolveAmount
    rw [if_pos rfl, hf]
  constructor
  · intro hv
    rw [hres]
    by_cases hc : (hasUnitKeyword m || decide (m.value.natAbs < 1000)) = true
    · rw [if_pos hc]
      constructor
      · intro _
        rw [Bool.or_eq_true] at hc
        rcases hc with h | h
        · rcases hk.mp h with h' | h' | h'
          · exact Or.inl h'
          · exact Or.inr (Or.inl h')
          · exact Or.inr (Or.inr (Or.inl h'))
        · exact Or.inr (Or.inr (Or.inr (of_decide_eq_true h)))
      · intro _
        rfl
    · rw [if_neg hc]
      constructor
      · intro h0
        exact absurd h0.symm hv
      · intro hdis
        exfalso
        apply hc
        rw [Bool.or_eq_true]
        rcases hdis with h | h | h | h
        · exact Or.inl (hk.mpr (Or.inl h))
        · exact Or.inl (hk.mpr (Or.inr (Or.inl h)))
        · exact Or.inl (hk.mpr (Or.inr (Or.inr h)))
        · exact Or.inr (decide_eq_true h)
  · intro hpt habs
    have hkf : hasUnitKeyword m = false := by
      cases hbk : hasUnitKeyword m
      · rfl
      · rcases hk.mp hbk with h | h | h <;> rw [hpt] at h <;> exact absurd h (by decide)
    rw [hres, if_neg (by rw [hkf]; simp only [Bool.false_or, decide_eq_true_eq]; exact habs)]

/-- Witness for the amended claim C9: a number with the pts unit is
accepted as the amount. -/
theorem amount_resolution_iff_witness :
    resolveAmount 0 ['9', '0', '0', ' ', 'p', 't', 's'] = 900 := by
  have h := (amount_resolution_iff ['9', '0', '0', ' ', 'p', 't', 's']
    ⟨900, ['9', '0', '0'], [' '], ['p', 't', 's']⟩ (by decide)).1 (by decide)
  exact h.mpr (by decide)

/-- Raw text whose first number is one thousand followed by the bare unit
word pt. -/
def ptCexText : List Char :=
  ['a', 'w', 'a', 'r', 'd', ' ', '<', '@', 'U', 'A', 'B', 'C', 'D', 'E', 'F', '>',
   ' ', '1', '0', '0', '0', ' ', 'p', 't']

/-- Counterexample to claim C9 as stated: the first signed integer of the
text is immediately followed by the unit word pt, yet the resolution
ignores it (the keyword test only recognises point and pts) and the
dispatcher falls through to the rate-card resolver without awarding. -/
theorem amount_unit_pt_ignored :
    findAmount ptCexText =
      some ⟨1000, ['1', '0', '0', '0'], [' '], ['p', 't']⟩ ∧
    resolveAmount 0 ptCexText = 0 ∧
    _handle_points_action ee1 award_pointsA ap0 ptCexText ['U', 'A'] =
      (.askAmount, [.getAllowance ['U', 'A'], .getRateCard]) := by decide

/-! #### Claim C7: the rate-card resolver on an exact name match -/

lemma commonLen_self (x : List Char) : commonLen x x = x.length := by
  induction x with
  | nil => rfl
  | cons c cs ih => simp [commonLen, ih]

lemma runLen_le_ahi (a b : List Char) (ahi bhi i j : Nat) :
    runLen a b ahi bhi i j ≤ ahi :=
  le_trans (le_trans (min_le_right _ _) (min_le_left _ _)) (Nat.sub_le _ _)

lemma bestInner_stable (a b : List Char) (ahi bhi i : Nat) :
    ∀ (js : List Nat) (best : Nat × Nat × Nat),
      (∀ j, runLen a b ahi bhi i j ≤ best.2.2) →
      bestInner a b ahi bhi i js best = best := by
  intro js
  induction js with
  | nil => intro best _; rfl
  | cons j js ih =>
      intro best h
      unfold bestInner
      rw [if_neg (Nat.not_lt.mpr (h j))]
      exact ih best h

lemma bestAtI_stable (a b : List Char) (ahi bhi i blo : Nat) (best : Nat × Nat × Nat)
    (h : ∀ j, runLen a b ahi bhi i j ≤ best.2.2) :
    bestAtI a b ahi bhi i blo best = best :=
  bestInner_stable a b ahi bhi i _ best h

lemma bestOuter_stable (a b : List Char) (ahi bhi blo : Nat) :
    ∀ (is2 : List Nat) (best : Nat × Nat × Nat),
      (∀ i j, runLen a b ahi bhi i j ≤ best.2.2) →
      bestOuter a b ahi bhi blo is2 best = best := by
  intro is2
  induction is2 with
  | nil => intro best _; rfl
  | cons i is2 ih =>
      intro best h
      unfold bestOuter
      rw [bestAtI_stable a b ahi bhi i blo best (h i)]
      exact ih best h

lemma runLen_self_zero (x : List Char) :
    runLen x x x.length x.length 0 0 = x.length := by
  unfold runLen
  simp [commonLen_self]

lemma bestAtI_self (x : List Char) (hn : 0 < x.length) :
    bestAtI x x x.length x.length 0 0 (0, 0, 0) = (0, 0, x.length) := by
  unfold bestAtI
  rw [Nat.sub_zero]
  obtain ⟨m, hm⟩ : ∃ m, x.length = m + 1 := ⟨x.length - 1, by omega⟩
  rw [hm, List.range'_succ]
  unfold bestInner
  rw [if_pos (by rw [← hm, runLen_self_zero, hm]; exact Nat.succ_pos m)]
  rw [← hm, runLen_self_zero]
  exact bestInner_stable x x x.length x.length 0 _ _
    (fun j => runLen_le_ahi x x x.length x.length 0 j)

lemma bestMatch_self (x : List Char) (hn : 0 < x.length) :
    bestMatch x x 0 x.length 0 x.length = (0, 0, x.length) := by
  unfold bestMatch
  rw [Nat.sub_zero]
  obtain ⟨m, hm⟩ : ∃ m, x.length = m + 1 := ⟨x.length - 1, by omega⟩
  rw [hm, List.range'_succ]
  unfold bestOuter
  rw [show bestAtI x x (m + 1) (m + 1) 0 0 (0, 0, 0) = (0, 0, m + 1) from
    hm ▸ bestAtI_self x hn]
  exact hm ▸ bestOuter_stable x x x.length x.length 0 _ _
    (fun i j => runLen_le_ahi x x x.length x.length i j)

lemma matchSumGo_empty (x y : List Char) (f a b : Nat) :
    matchSumGo x y f a a b b = 0 := by
  cases f with
  | zero => rfl
  | succ g =>
      unfold matchSumGo bestMatch
      rw [Nat.sub_self]
      rfl

lemma matchSumGo_self (x : List Char) (hn : 0 < x.length) :
    matchSumGo x x (x.length + x.length + 1) 0 x.length 0 x.length = x.length := by
  unfold matchSumGo
  rw [bestMatch_self x hn]
  dsimp only
  rw [if_neg (by omega)]
  simp [Nat.zero_add, matchSumGo_empty]

lemma simScore_self (x : List Char) : simScore x x = 100 := by
  by_cases hx : x.length = 0
  · unfold simScore
    rw [if_pos (by omega)]
  · unfold simScore
    rw [if_neg (by omega), matchSumGo_self x (by omega)]
    have hq : ((x.length : ℚ) + (x.length : ℚ)) ≠ 0 := by
      have : (0 : ℚ) < (x.length : ℚ) := by exact_mod_cast Nat.pos_of_ne_zero hx
      nlinarith
    field_simp
    ring

lemma entryScore_of_exact (e : RateEntry) :
    entryScore (lowList e.name) e =
      (if lowList e.name <:+: lowList e.desc then (180 : ℚ) else 150) := by
  unfold entryScore
  dsimp only
  rw [simScore_self, if_pos (List.infix_refl _),
    if_pos (show (60 : ℚ) < 100 by norm_num)]
  by_cases hd : lowList e.name <:+: lowList e.desc
  · rw [if_pos hd, if_pos hd]
    norm_num
  · rw [if_neg hd, if_neg hd]
    norm_num

lemma entryScore_exact_ge (e : RateEntry) : 150 ≤ entryScore (lowList e.name) e := by
  rw [entryScore_of_exact]
  by_cases hd : lowList e.name <:+: lowList e.desc
  · rw [if_pos hd]
    norm_num
  · rw [if_neg hd]

lemma rateMatches_single (rl : List Char) (pre post : List RateEntry) (e : RateEntry)
    (hothers : ∀ e' ∈ pre ++ post, entryScore rl e' ≤ 40)
    (he : 40 < entryScore rl e) :
    rateMatches (pre ++ e :: post) rl = [(entryScore rl e, e)] := by
  unfold rateMatches
  have hf : ∀ e' ∈ pre ++ post,
      (fun e' => if 40 < entryScore rl e' then some (entryScore rl e', e') else none) e' =
        none := by
    intro e' he'
    exact if_neg (not_lt.mpr (hothers e' he'))
  rw [List.filterMap_append]
  rw [List.filterMap_eq_nil_iff.mpr (fun e' he' => hf e' (List.mem_append_left _ he'))]
  rw [List.filterMap_cons]
  rw [if_pos he]
  dsimp only
  rw [List.filterMap_eq_nil_iff.mpr (fun e' he' => hf e' (List.mem_append_right _ he'))]
  rfl

/-- Claim C7: when the free-text reason exactly equals the name of one
rate-card entry and every other entry scores at or below the inclusion
threshold, the scoring makes that entry the sole candidate with score at
least 80 (in fact at least 150: name substring plus full similarity), and
the award branch returns the confirmation question proposing the points of
that entry for the first target without any POST to the award endpoint. -/
theorem rate_card_exact_match :
    ∀ (env : ExecEnv) (p : AwardParams) (text user : List Char) (al : Allowance)
      (e : RateEntry) (pre post : List RateEntry) (t0 : List Char) (ts : List (List Char)),
      env.pts.adminAllowance user = .okA al →
      0 < al.remaining →
      p.points = 0 →
      resolveAmount 0 text = 0 →
      p.reason = some e.name →
      e.name ≠ [] →
      awardTargets env.botId text p = t0 :: ts →
      env.rateCard = pre ++ e :: post →
      (∀ e' ∈ pre ++ post, entryScore (lowList e.name) e' ≤ 40) →
      (80 ≤ entryScore (lowList e.name) e ∧
       rateMatches env.rateCard (lowList e.name) = [(entryScore (lowList e.name) e, e)] ∧
       _handle_points_action env award_pointsA p text user =
         (.confirmRateCard e.name e.points (_clean_slack_id t0) (some al.remaining),
          [.getAllowance user, .getRateCard]) ∧
       ∀ c ∈ (_handle_points_action env award_pointsA p text user).2,
         c.isAwardPost = false) := by
  intro env p text user al e pre post t0 ts hal hrem hp hres hreason hname htargets hcard
    hothers
  have hge := entryScore_exact_ge e
  have hmatches : rateMatches env.rateCard (lowList e.name) =
      [(entryScore (lowList e.name) e, e)] := by
    rw [hcard]
    exact rateMatches_single (lowList e.name) pre post e hothers (by linarith)
  have hmain : _handle_points_action env award_pointsA p text user =
      (.confirmRateCard e.name e.points (_clean_slack_id t0) (some al.remaining),
       [.getAllowance user, .getRateCard]) := by
    unfold _handle_points_action
    rw [if_neg (by intro hx; rcases hx with hx | hx <;> exact absurd hx (by decide)),
      if_pos (Or.inl rfl), hal]
    dsimp only
    rw [if_neg (by omega)]
    unfold awardBody
    dsimp only
    rw [hreason, Option.getD_some, htargets, hp, hres]
    rw [if_neg (by simp)]
    rw [if_pos rfl]
    rw [if_pos hname]
    rw [hmatches]
    dsimp only
    rw [if_pos (Or.inl rfl)]
    rfl
  refine ⟨by linarith, hmatches, hmain, ?_⟩
  rw [hmain]
  intro c hc
  rcases List.mem_cons.mp hc with rfl | hc2
  · rfl
  · rcases List.mem_singleton.mp hc2 with rfl
    rfl

/-- Concrete executor environment for the C7 witness: one rate-card entry
named Talk worth ten points. -/
def envC7 : ExecEnv :=
  ⟨pe1, none, [⟨['T', 'a', 'l', 'k'], 10, []⟩], fun _ => none, fun _ => none,
   fun _ _ => none⟩

/-- Parameter record for the C7 witness: no amount, the reason Talk. -/
def apC7 : AwardParams := ⟨0, some ['T', 'a', 'l', 'k'], [], [], []⟩

/-- Raw text of the C7 witness: one mention and no digits. -/
def awardTalkText : List Char :=
  ['a', 'w', 'a', 'r', 'd', ' ', '<', '@', 'U', 'A', 'B', 'C', '>', ' ', 'f', 'o', 'r',
   ' ', 'T', 'a', 'l', 'k']

/-- Witness for claim C7 at a concrete input. -/
theorem rate_card_exact_match_witness :
    _handle_points_action envC7 award_pointsA apC7 awardTalkText ['U', 'A'] =
      (.confirmRateCard ['T', 'a', 'l', 'k'] 10 ['U', 'A', 'B', 'C'] (some 2),
       [.getAllowance ['U', 'A'], .getRateCard]) := by
  have h := (rate_card_exact_match envC7 apC7 awardTalkText ['U', 'A'] ⟨10, 8, 2⟩
    ⟨['T', 'a', 'l', 'k'], 10, []⟩ [] [] ['U', 'A', 'B', 'C'] [] rfl (by decide) rfl
    (by decide) rfl (by decide) (by decide) rfl
    (by intro e' he'; exact absurd he' (by simp))).2.2.1
  exact h
